import Mathlib

/-!
Verification development for the asset-reference resolver of `xcwrap`
(`internal/assets/scanner.go`).  Go strings are byte strings, so the model
works over lists of byte values (`List Nat`); the filesystem walked by the
scanner is modelled as a tree of named directories and files.  The Go regular
expressions are embedded as explicit regex syntax trees together with a
leftmost-first backtracking matcher mirroring Go's submatch semantics for the
patterns in the scanner.  The concurrent worker pool only synchronises
insertions into one used-set and publication of the first error, so it is
modelled by sequential folds over the walked file list.  This file assumes the
Unix build of the tool: `filepath.Separator` is `/` and `filepath.ToSlash` is
the identity.
-/

namespace Xcwrap

/-- Go strings are byte strings; the model uses lists of byte values. -/
abbrev Str := List Nat

/-- UTF-8 encoding of a Unicode code point (Go `utf8.EncodeRune` on valid runes). -/
def utf8EncodeChar (c : Nat) : List Nat :=
  if c < 0x80 then [c]
  else if c < 0x800 then [0xC0 + c / 64, 0x80 + c % 64]
  else if c < 0x10000 then [0xE0 + c / 4096, 0x80 + (c / 64) % 64, 0x80 + c % 64]
  else [0xF0 + c / 0x40000, 0x80 + (c / 4096) % 64, 0x80 + (c / 64) % 64, 0x80 + c % 64]

/-- The byte string of a Lean string literal (UTF-8 encoded, as Go source literals are). -/
def str (s : String) : Str :=
  (s.data.map (fun c => utf8EncodeChar c.toNat)).flatten

/-- Is `b1` a UTF-8 continuation byte? -/
def isCont (b : Nat) : Bool := 0x80 ≤ b && b ≤ 0xBF

/-- Go `utf8.DecodeRuneInString` on a byte string: the first rune and its width.
An empty input yields `(RuneError, 0)`; an invalid encoding yields `(RuneError, 1)`.
Overlong encodings, surrogates and values above U+10FFFF are invalid, exactly as in Go. -/
def utf8DecodeRune : Str → Nat × Nat
  | [] => (0xFFFD, 0)
  | b0 :: rest =>
    if b0 < 0x80 then (b0, 1)
    else if 0xC2 ≤ b0 && b0 ≤ 0xDF then
      match rest with
      | b1 :: _ =>
        if isCont b1 then ((b0 - 0xC0) * 64 + (b1 - 0x80), 2) else (0xFFFD, 1)
      | [] => (0xFFFD, 1)
    else if 0xE0 ≤ b0 && b0 ≤ 0xEF then
      match rest with
      | b1 :: b2 :: _ =>
        let lo1 : Nat := if b0 == 0xE0 then 0xA0 else 0x80
        let hi1 : Nat := if b0 == 0xED then 0x9F else 0xBF
        if lo1 ≤ b1 && b1 ≤ hi1 && isCont b2 then
          ((b0 - 0xE0) * 4096 + (b1 - 0x80) * 64 + (b2 - 0x80), 3)
        else (0xFFFD, 1)
      | _ => (0xFFFD, 1)
    else if 0xF0 ≤ b0 && b0 ≤ 0xF4 then
      match rest with
      | b1 :: b2 :: b3 :: _ =>
        let lo1 : Nat := if b0 == 0xF0 then 0x90 else 0x80
        let hi1 : Nat := if b0 == 0xF4 then 0x8F else 0xBF
        if lo1 ≤ b1 && b1 ≤ hi1 && isCont b2 && isCont b3 then
          ((b0 - 0xF0) * 0x40000 + (b1 - 0x80) * 4096 + (b2 - 0x80) * 64 + (b3 - 0x80), 4)
        else (0xFFFD, 1)
      | _ => (0xFFFD, 1)
    else (0xFFFD, 1)

/-- The UTF-8 decoding loop over a whole byte string: each element is the
decoded rune, the bytes it consumed, and whether the encoding was valid.
An invalid sequence consumes exactly its first byte and yields U+FFFD, as
`utf8.DecodeRuneInString` does. -/
def utf8DecodeF : Nat → Str → List (Nat × Str × Bool)
  | 0, _ => []
  | _ + 1, [] => []
  | fuel + 1, b0 :: rest =>
    if b0 < 0x80 then (b0, [b0], true) :: utf8DecodeF fuel rest
    else if 0xC2 ≤ b0 && b0 ≤ 0xDF then
      match rest with
      | b1 :: rest2 =>
        if isCont b1 then
          ((b0 - 0xC0) * 64 + (b1 - 0x80), [b0, b1], true) :: utf8DecodeF fuel rest2
        else (0xFFFD, [b0], false) :: utf8DecodeF fuel rest
      | [] => [(0xFFFD, [b0], false)]
    else if 0xE0 ≤ b0 && b0 ≤ 0xEF then
      match rest with
      | b1 :: b2 :: rest3 =>
        let lo1 : Nat := if b0 == 0xE0 then 0xA0 else 0x80
        let hi1 : Nat := if b0 == 0xED then 0x9F else 0xBF
        if lo1 ≤ b1 && b1 ≤ hi1 && isCont b2 then
          ((b0 - 0xE0) * 4096 + (b1 - 0x80) * 64 + (b2 - 0x80), [b0, b1, b2], true) ::
            utf8DecodeF fuel rest3
        else (0xFFFD, [b0], false) :: utf8DecodeF fuel rest
      | _ => (0xFFFD, [b0], false) :: utf8DecodeF fuel rest
    else if 0xF0 ≤ b0 && b0 ≤ 0xF4 then
      match rest with
      | b1 :: b2 :: b3 :: rest4 =>
        let lo1 : Nat := if b0 == 0xF0 then 0x90 else 0x80
        let hi1 : Nat := if b0 == 0xF4 then 0x8F else 0xBF
        if lo1 ≤ b1 && b1 ≤ hi1 && isCont b2 && isCont b3 then
          ((b0 - 0xF0) * 0x40000 + (b1 - 0x80) * 4096 + (b2 - 0x80) * 64 + (b3 - 0x80),
            [b0, b1, b2, b3], true) :: utf8DecodeF fuel rest4
        else (0xFFFD, [b0], false) :: utf8DecodeF fuel rest
      | _ => (0xFFFD, [b0], false) :: utf8DecodeF fuel rest
    else (0xFFFD, [b0], false) :: utf8DecodeF fuel rest

/-- The decoding loop with ample fuel (each step consumes at least one byte). -/
def utf8Decode (s : Str) : List (Nat × Str × Bool) := utf8DecodeF (s.length + 1) s

/-- Go `utf8.Valid`: every position decodes to a valid rune. -/
def utf8Valid (s : Str) : Bool := (utf8Decode s).all (fun d => d.2.2)

/-- The fragment of `unicode.IsDigit` exercised by the scanner's inputs (ASCII digits). -/
def unicodeIsDigit (r : Nat) : Bool := 48 ≤ r && r ≤ 57

/-- The fragment of `unicode.IsLetter` needed here: ASCII and Latin-1 letters.
Code points above U+00FF are not letters in this model (the scanner's analysed
inputs stay within Latin-1). -/
def unicodeIsLetter (r : Nat) : Bool :=
  (65 ≤ r && r ≤ 90) || (97 ≤ r && r ≤ 122) || r == 0xAA || r == 0xB5 || r == 0xBA ||
  (0xC0 ≤ r && r ≤ 0xFF && r != 0xD7 && r != 0xF7)

/-- The fragment of `unicode.ToUpper` needed here: ASCII and Latin-1 simple case maps. -/
def unicodeToUpper (r : Nat) : Nat :=
  if 97 ≤ r && r ≤ 122 then r - 32
  else if 0xE0 ≤ r && r ≤ 0xFE && r != 0xF7 then r - 32
  else if r == 0xB5 then 0x39C
  else if r == 0xFF then 0x178
  else r

/-- The fragment of `unicode.ToLower` needed here: ASCII and Latin-1 simple case maps. -/
def unicodeToLower (r : Nat) : Nat :=
  if 65 ≤ r && r ≤ 90 then r + 32
  else if 0xC0 ≤ r && r ≤ 0xDE && r != 0xD7 then r + 32
  else if r == 0x39C then 0xB5
  else if r == 0x178 then 0xFF
  else r

/-- Go `strings.Map` over a byte string: decode each rune, apply `f`, re-encode.
An invalid byte is replaced by U+FFFD, exactly as `strings.Map` writes
`utf8.RuneError` for a 1-byte invalid decode.  (For a valid rune left fixed by
`f`, re-encoding reproduces the original bytes, since only canonical encodings
decode as valid.) -/
def goMapString (f : Nat → Nat) (s : Str) : Str :=
  ((utf8Decode s).map (fun d =>
    if d.2.2 then utf8EncodeChar (f d.1) else utf8EncodeChar 0xFFFD)).flatten

/-- Go `strings.ToUpper`. -/
def goToUpper (s : Str) : Str := goMapString unicodeToUpper s

/-- Go `strings.ToLower`. -/
def goToLower (s : Str) : Str := goMapString unicodeToLower s

/-- The grouping loop of Go `strings.FieldsFunc` over the decoded runes:
`cur` holds the bytes of the field being built. -/
def fieldsFuncGroup (f : Nat → Bool) : List (Nat × Str × Bool) → Str → List Str
  | [], cur => if cur == [] then [] else [cur]
  | d :: rest, cur =>
    if f d.1 then (if cur == [] then [] else [cur]) ++ fieldsFuncGroup f rest []
    else fieldsFuncGroup f rest (cur ++ d.2.1)

/-- Go `strings.FieldsFunc` with a rune predicate `f`: the maximal substrings
whose runes all falsify `f`. -/
def fieldsFunc (f : Nat → Bool) (s : Str) : List Str := fieldsFuncGroup f (utf8Decode s) []

/-- Go `strings.Index`: the smallest index at which `sub` occurs in `s`
(`none` models Go's `-1`). -/
def goIndex (sub : Str) : Str → Option Nat
  | [] => if sub == [] then some 0 else none
  | c :: rest =>
    if sub.isPrefixOf (c :: rest) then some 0
    else match goIndex sub rest with
      | some i => some (i + 1)
      | none => none

/-- Go `strings.Contains`. -/
def goContains (s sub : Str) : Bool := (goIndex sub s).isSome

/-- Go `strings.TrimPrefix`. -/
def goTrimPre (s pre : Str) : Str :=
  if pre.isPrefixOf s then s.drop pre.length else s

/-- Go `strings.TrimSuffix`. -/
def goTrimSuf (s suf : Str) : Str :=
  if suf.isSuffixOf s then s.take (s.length - suf.length) else s

/-- Is this byte an ASCII white-space byte (the fragment of `unicode.IsSpace`
relevant to the scanner)? -/
def isSpaceByte (c : Nat) : Bool :=
  c == 9 || c == 10 || c == 11 || c == 12 || c == 13 || c == 32

/-- Go `strings.TrimSpace` (ASCII fragment of `unicode.IsSpace`). -/
def goTrimSpace (s : Str) : Str :=
  ((s.dropWhile isSpaceByte).reverse.dropWhile isSpaceByte).reverse

/-- Go `strings.Split(s, sep)` for a one-byte separator. -/
def splitOnByte (sep : Nat) : Str → List Str
  | [] => [[]]
  | c :: rest =>
    if c == sep then [] :: splitOnByte sep rest
    else match splitOnByte sep rest with
      | f :: fs => (c :: f) :: fs
      | [] => [[c]]

/-- Ascending byte-wise lexicographic order on byte strings (Go `strings.Compare`). -/
def lexLe : Str → Str → Bool
  | [], _ => true
  | _ :: _, [] => false
  | a :: as, b :: bs => if a < b then true else if b < a then false else lexLe as bs

/-- Insert into a lexicographically sorted list. -/
def insertSorted (x : Str) : List Str → List Str
  | [] => [x]
  | y :: ys => if lexLe x y then x :: y :: ys else y :: insertSorted x ys

/-- Go `slices.Sort` on a list of strings (ascending lexicographic). -/
def sortStrs (l : List Str) : List Str := l.foldr insertSorted []

/-- Scan a reversed path for `filepath.Ext`: collect the suffix after the last
dot of the last slash-separated element. -/
def filepathExtAux : Str → Str → Str
  | [], _ => []
  | c :: rest, acc =>
    if c == 47 then []
    else if c == 46 then 46 :: acc
    else filepathExtAux rest (c :: acc)

/-- Go `filepath.Ext`: the suffix beginning at the final dot in the final
slash-separated element, or empty. -/
def filepathExt (p : Str) : Str := filepathExtAux p.reverse []

/-- The last slash-separated segment of a path (the `fs.DirEntry` name of the root). -/
def baseName (p : Str) : Str := (splitOnByte 47 p).getLastD []

/-- The backtracking step of Go `path.Clean`'s `..` case: decrease the write
index while it exceeds `dotdot` and the byte there is not a slash. -/
def backtrackW (out : Str) (dotdot : Nat) : Nat → Nat
  | 0 => 0
  | w + 1 =>
    if w + 1 > dotdot && out.getD (w + 1) 0 != 47 then backtrackW out dotdot w
    else w + 1

mutual

/-- The main loop of Go `path.Clean` (equal to `filepath.Clean` on Unix):
the unread input, the output buffer `out`, and the limit `dotdot` below which
`..` may not pop.  The loops are fuelled to stay kernel-computable; every
iteration consumes input, so the ample fuel passed by `pathClean` is never
exhausted. -/
def cleanLoop (rooted : Bool) : Nat → Str → Str → Nat → Str
  | 0, _, out, _ => out
  | _ + 1, [], out, _ => out
  | fuel + 1, c :: rest, out, dotdot =>
    if c == 47 then cleanLoop rooted fuel rest out dotdot
    else if c == 46 && (rest == [] || rest.headD 0 == 47) then
      cleanLoop rooted fuel rest out dotdot
    else if c == 46 && rest.headD 0 == 46 &&
        (rest.tail == [] || rest.tail.headD 0 == 47) then
      if out.length > dotdot then
        let w := backtrackW out dotdot (out.length - 1)
        cleanLoop rooted fuel rest.tail (out.take w) dotdot
      else if !rooted then
        let out2 := (if out.length > 0 then out ++ [47] else out) ++ [46, 46]
        cleanLoop rooted fuel rest.tail out2 out2.length
      else cleanLoop rooted fuel rest.tail out dotdot
    else
      let out2 :=
        if (rooted && out.length != 1) || (!rooted && out.length != 0) then out ++ [47]
        else out
      cleanSeg rooted fuel (c :: rest) out2 dotdot

/-- The inner element-copying loop of Go `path.Clean`: copy bytes of the
current path element into `out` up to the next slash (consuming that slash,
which the outer loop would skip next), then return to the main loop.  (An
exhausted input simply ends the loop.) -/
def cleanSeg (rooted : Bool) : Nat → Str → Str → Nat → Str
  | 0, _, out, _ => out
  | _ + 1, [], out, _ => out
  | fuel + 1, c :: rest, out, dotdot =>
    if c == 47 then cleanLoop rooted fuel rest out dotdot
    else cleanSeg rooted fuel rest (out ++ [c]) dotdot

end

/-- Go `path.Clean` (= `filepath.Clean` on Unix). -/
def pathClean (p : Str) : Str :=
  if p == [] then str "."
  else
    let rooted := p.headD 0 == 47
    let out :=
      if rooted then cleanLoop rooted (2 * p.length + 2) (p.drop 1) [47] 1
      else cleanLoop rooted (2 * p.length + 2) p [] 0
    if out == [] then str "." else out

/-- The count of equal leading elements of two lists. -/
def countCommon : List Str → List Str → Nat
  | a :: as, b :: bs => if a == b then countCommon as bs + 1 else 0
  | _, _ => 0

/-- `commonPathPrefixSegments` of `scanner.go`: the number of leading
slash-separated segments the cleaned paths share. -/
def commonPathPrefixSegments (a b : Str) : Nat :=
  countCommon (splitOnByte 47 (pathClean a)) (splitOnByte 47 (pathClean b))

/-! ## A regular-expression engine for the scanner's patterns

The scanner's Go regexes are embedded as explicit syntax trees.  Every
quantified subexpression in those patterns is a single-byte character class,
so the star and plus constructors are restricted to classes.  The matcher
enumerates candidate matches in backtracking preference order (greedy
quantifiers, alternation left first), which reproduces Go's leftmost-first
submatch semantics for these patterns. -/

/-- Regex syntax trees covering the constructs in `scanner.go`'s patterns. -/
inductive Re where
  | cls (p : Nat → Bool)
  | lit (w : Str)
  | seq (a b : Re)
  | alt (a b : Re)
  | opt (a : Re)
  | starCls (p : Nat → Bool)
  | plusCls (p : Nat → Bool)
  | group (idx : Nat) (a : Re)
  | wb
  | bos

/-- Length of the maximal leading run of bytes satisfying `p`. -/
def countRun (p : Nat → Bool) : Str → Nat
  | [] => 0
  | c :: rest => if p c then countRun p rest + 1 else 0

/-- A word byte for the ASCII word boundary `\b` (`[0-9A-Za-z_]`). -/
def isWordByte (c : Nat) : Bool :=
  (48 ≤ c && c ≤ 57) || (65 ≤ c && c ≤ 90) || (97 ≤ c && c ≤ 122) || c == 95

/-- All candidate matches of `re` at the start of `s`, as
(consumed length, captured groups) in backtracking preference order.
`prev` is the byte immediately before this position (`none` at the start of
the subject), used by `\b` and `^`. -/
def reMatches : Re → Option Nat → Str → List (Nat × List (Nat × Str))
  | .cls p, _, s =>
    match s with
    | [] => []
    | c :: _ => if p c then [(1, [])] else []
  | .lit w, _, s => if w.isPrefixOf s then [(w.length, [])] else []
  | .seq a b, prev, s =>
    (reMatches a prev s).flatMap (fun m =>
      let prev2 := if m.1 == 0 then prev else (s.take m.1).getLast?
      (reMatches b prev2 (s.drop m.1)).map (fun m2 => (m.1 + m2.1, m.2 ++ m2.2)))
  | .alt a b, prev, s => reMatches a prev s ++ reMatches b prev s
  | .opt a, prev, s => reMatches a prev s ++ [(0, [])]
  | .starCls p, _, s =>
    let k := countRun p s
    (List.range (k + 1)).map (fun i => (k - i, []))
  | .plusCls p, _, s =>
    let k := countRun p s
    (List.range k).map (fun i => (k - i, []))
  | .group idx a, prev, s =>
    (reMatches a prev s).map (fun m => (m.1, (idx, s.take m.1) :: m.2))
  | .wb, prev, s =>
    let before := match prev with | none => false | some c => isWordByte c
    let after := match s with | [] => false | c :: _ => isWordByte c
    if before != after then [(0, [])] else []
  | .bos, prev, _ => if prev.isNone then [(0, [])] else []

/-- One match of a regex in a subject: start position, length, captured groups. -/
structure RxM where
  start : Nat
  len : Nat
  caps : List (Nat × Str)
  deriving DecidableEq

/-- The content of capture group `i` of a match (empty if absent). -/
def RxM.cap (m : RxM) (i : Nat) : Str :=
  match m.caps.find? (fun p => p.1 == i) with
  | some p => p.2
  | none => []

/-- Scan a subject left to right collecting non-overlapping leftmost-first
matches, as Go's `FindAllStringSubmatch`/`FindAllStringIndex` do.  (The
scanner's patterns never match the empty string, so the empty-match advance
is the simple one.) -/
def reFindAllAux (re : Re) : Nat → Option Nat → Str → Nat → List RxM
  | 0, _, _, _ => []
  | _ + 1, prev, [], pos =>
    match (reMatches re prev []).head? with
    | some m => [⟨pos, m.1, m.2⟩]
    | none => []
  | fuel + 1, prev, c :: rest, pos =>
    match (reMatches re prev (c :: rest)).head? with
    | none => reFindAllAux re fuel (some c) rest (pos + 1)
    | some m =>
      if m.1 == 0 then ⟨pos, 0, m.2⟩ :: reFindAllAux re fuel (some c) rest (pos + 1)
      else
        ⟨pos, m.1, m.2⟩ ::
          reFindAllAux re fuel (((c :: rest).take m.1).getLast?) ((c :: rest).drop m.1)
            (pos + m.1)

/-- All non-overlapping leftmost-first matches of `re` in `s` (the fuel is
ample: every step consumes at least one byte). -/
def reFindAll (re : Re) (s : Str) : List RxM := reFindAllAux re (s.length + 1) none s 0

/-- Sequencing of a list of regexes. -/
def rSeq : List Re → Re
  | [] => Re.lit []
  | [r] => r
  | r :: rest => Re.seq r (rSeq rest)

/-- Literal regex from a Lean string literal. -/
def rLit (s : String) : Re := Re.lit (str s)

/-- The class `[A-Za-z0-9._ -]` (Xcode's asset-name alphabet). -/
def isAssetNameByte (c : Nat) : Bool :=
  (65 ≤ c && c ≤ 90) || (97 ≤ c && c ≤ 122) || (48 ≤ c && c ≤ 57) ||
  c == 46 || c == 95 || c == 32 || c == 45

/-- The class `[A-Za-z_]`. -/
def isIdentFirst (c : Nat) : Bool :=
  (65 ≤ c && c ≤ 90) || (97 ≤ c && c ≤ 122) || c == 95

/-- The class `[A-Za-z0-9_]`. -/
def isIdentByte (c : Nat) : Bool := isIdentFirst c || (48 ≤ c && c ≤ 57)

/-- The regex class `\s` (Go RE2: `[\t\n\f\r ]`). -/
def isReSpace (c : Nat) : Bool :=
  c == 9 || c == 10 || c == 12 || c == 13 || c == 32

/-- `\s*`. -/
def rWs : Re := Re.starCls isReSpace

/-- `\s+`. -/
def rWsPlus : Re := Re.plusCls isReSpace

/-- `([A-Za-z_][A-Za-z0-9_]*)` as capture group `idx`. -/
def identGroup (idx : Nat) : Re :=
  Re.group idx (Re.seq (Re.cls isIdentFirst) (Re.starCls isIdentByte))

/-- `([A-Za-z0-9._ -]+)` as capture group `idx`. -/
def assetNameGroup (idx : Nat) : Re := Re.group idx (Re.plusCls isAssetNameByte)

/-- A double quote (`"`). -/
def rQuote : Re := Re.lit [34]

/-- An opening brace (`{`, byte 123). -/
def rOpenBrace : Re := Re.lit [123]

/-! ## The scanner's regular expressions (`scanner.go` lines 23-41) -/

/-- Go: `\b(?:(?:UI|NS)?(?:Image|Color)|(?:NS)?DataAsset)\s*\(\s*resource\s*:\s*\.([A-Za-z_][A-Za-z0-9_]*)` -/
def swiftResourceRefRe : Re := rSeq [Re.wb,
  Re.alt (Re.seq (Re.opt (Re.alt (rLit "UI") (rLit "NS"))) (Re.alt (rLit "Image") (rLit "Color")))
         (Re.seq (Re.opt (rLit "NS")) (rLit "DataAsset")),
  rWs, rLit "(", rWs, rLit "resource", rWs, rLit ":", rWs, rLit ".", identGroup 1]

/-- Go: `\b(?:image|selectedImage|highlightedImage)\s*=\s*"([A-Za-z0-9._ -]+)"` -/
def ibImageStateRefRe : Re := rSeq [Re.wb,
  Re.alt (rLit "image") (Re.alt (rLit "selectedImage") (rLit "highlightedImage")),
  rWs, rLit "=", rWs, rQuote, assetNameGroup 1, rQuote]

/-- Go: `<(?:image|color)\b[^>]*\bname\s*=\s*"([A-Za-z0-9._ -]+)"` -/
def ibNamedAssetTagRefRe : Re := rSeq [rLit "<",
  Re.alt (rLit "image") (rLit "color"), Re.wb,
  Re.starCls (fun c => c != 62), Re.wb,
  rLit "name", rWs, rLit "=", rWs, rQuote, assetNameGroup 1, rQuote]

/-- Go: `\b(?:UI|NS)?Image\s*\(\s*(?:named|name)\s*:\s*"([A-Za-z0-9._ -]+)"` -/
def swiftNamedImageAssetRefRe : Re := rSeq [Re.wb,
  Re.opt (Re.alt (rLit "UI") (rLit "NS")), rLit "Image",
  rWs, rLit "(", rWs, Re.alt (rLit "named") (rLit "name"), rWs, rLit ":", rWs,
  rQuote, assetNameGroup 1, rQuote]

/-- Go: `\b(?:UI|NS)?Color\s*\(\s*(?:named|name)\s*:\s*"([A-Za-z0-9._ -]+)"` -/
def swiftNamedColorAssetRefRe : Re := rSeq [Re.wb,
  Re.opt (Re.alt (rLit "UI") (rLit "NS")), rLit "Color",
  rWs, rLit "(", rWs, Re.alt (rLit "named") (rLit "name"), rWs, rLit ":", rWs,
  rQuote, assetNameGroup 1, rQuote]

/-- Go: `\b(?:NS)?DataAsset\s*\(\s*(?:named|name)\s*:\s*"([A-Za-z0-9._ -]+)"` -/
def swiftNamedDataAssetRefRe : Re := rSeq [Re.wb,
  Re.opt (rLit "NS"), rLit "DataAsset",
  rWs, rLit "(", rWs, Re.alt (rLit "named") (rLit "name"), rWs, rLit ":", rWs,
  rQuote, assetNameGroup 1, rQuote]

/-- Go: `\bImage\s*\(\s*"([A-Za-z0-9._ -]+)"(?:\s*,[^)]*)?\)` -/
def swiftUIImageAssetRefRe : Re := rSeq [Re.wb, rLit "Image",
  rWs, rLit "(", rWs, rQuote, assetNameGroup 1, rQuote,
  Re.opt (rSeq [rWs, rLit ",", Re.starCls (fun c => c != 41)]), rLit ")"]

/-- Go: `\bColor\s*\(\s*"([A-Za-z0-9._ -]+)"(?:\s*,[^)]*)?\)` -/
def swiftUIColorAssetRefRe : Re := rSeq [Re.wb, rLit "Color",
  rWs, rLit "(", rWs, rQuote, assetNameGroup 1, rQuote,
  Re.opt (rSeq [rWs, rLit ",", Re.starCls (fun c => c != 41)]), rLit ")"]

/-- Go: `(?:^|[,(])\s*([A-Za-z_][A-Za-z0-9_]*|_)\s*(?:[A-Za-z_][A-Za-z0-9_]*)?\s*:\s*(?:\[[ \t]*)?(ImageResource|ColorResource)(?:[ \t]*\])?\s*[!?]?` -/
def swiftResourceParameterRe : Re := rSeq [
  Re.alt Re.bos (Re.cls (fun c => c == 44 || c == 40)),
  rWs,
  Re.group 1 (Re.alt (Re.seq (Re.cls isIdentFirst) (Re.starCls isIdentByte)) (rLit "_")),
  rWs,
  Re.opt (Re.seq (Re.cls isIdentFirst) (Re.starCls isIdentByte)),
  rWs, rLit ":", rWs,
  Re.opt (Re.seq (rLit "[") (Re.starCls (fun c => c == 32 || c == 9))),
  Re.group 2 (Re.alt (rLit "ImageResource") (rLit "ColorResource")),
  Re.opt (Re.seq (Re.starCls (fun c => c == 32 || c == 9)) (rLit "]")),
  rWs, Re.opt (Re.cls (fun c => c == 33 || c == 63))]

/-- Go: `\b(?:UI|NS)Image\s+imageNamed:\s*@\"([A-Za-z0-9._ -]+)\"` -/
def objcImageNamedAssetRefRe : Re := rSeq [Re.wb,
  Re.alt (rLit "UI") (rLit "NS"), rLit "Image", rWsPlus, rLit "imageNamed:", rWs,
  rLit "@", rQuote, assetNameGroup 1, rQuote]

/-- Go: `\b(?:UI|NS)Image\s+imageNamed:\s*([A-Za-z_][A-Za-z0-9_]*)` -/
def objcImageNamedVariableRefRe : Re := rSeq [Re.wb,
  Re.alt (rLit "UI") (rLit "NS"), rLit "Image", rWsPlus, rLit "imageNamed:", rWs,
  identGroup 1]

/-- Go: `\b(?:UI|NS)Color\s+colorNamed:\s*@\"([A-Za-z0-9._ -]+)\"` -/
def objcColorNamedAssetRefRe : Re := rSeq [Re.wb,
  Re.alt (rLit "UI") (rLit "NS"), rLit "Color", rWsPlus, rLit "colorNamed:", rWs,
  rLit "@", rQuote, assetNameGroup 1, rQuote]

/-- Go: `\b(?:NS)?DataAsset\b[^\n\r;]*\binitWithName:\s*@\"([A-Za-z0-9._ -]+)\"` -/
def objcDataAssetNameRefRe : Re := rSeq [Re.wb,
  Re.opt (rLit "NS"), rLit "DataAsset", Re.wb,
  Re.starCls (fun c => c != 10 && c != 13 && c != 59), Re.wb,
  rLit "initWithName:", rWs, rLit "@", rQuote, assetNameGroup 1, rQuote]

/-- Go: `\b(?:var|let)\s+([A-Za-z_][A-Za-z0-9_]*)\s*:\s*(?:\[[ \t]*)?(?:ImageResource|ColorResource)(?:[ \t]*\])?` -/
def swiftTypedResourceVarRe : Re := rSeq [Re.wb,
  Re.alt (rLit "var") (rLit "let"), rWsPlus, identGroup 1, rWs, rLit ":", rWs,
  Re.opt (Re.seq (rLit "[") (Re.starCls (fun c => c == 32 || c == 9))),
  Re.alt (rLit "ImageResource") (rLit "ColorResource"),
  Re.opt (Re.seq (Re.starCls (fun c => c == 32 || c == 9)) (rLit "]"))]

/-- Go: `\b(?:var|let)\s+([A-Za-z_][A-Za-z0-9_]*)\s*=\s*\[\s*(?:ImageResource|ColorResource)\s*\]\s*\(\s*\)` -/
def swiftTypedResourceVarInitRe : Re := rSeq [Re.wb,
  Re.alt (rLit "var") (rLit "let"), rWsPlus, identGroup 1, rWs, rLit "=", rWs,
  rLit "[", rWs, Re.alt (rLit "ImageResource") (rLit "ColorResource"), rWs, rLit "]",
  rWs, rLit "(", rWs, rLit ")"]

/-- Go: `\b(?:var|let)\s+([A-Za-z_][A-Za-z0-9_]*)\s*:\s*(?:ImageResource|ColorResource)\s*[!?]?` -/
def swiftTypedResourceScalarVarRe : Re := rSeq [Re.wb,
  Re.alt (rLit "var") (rLit "let"), rWsPlus, identGroup 1, rWs, rLit ":", rWs,
  Re.alt (rLit "ImageResource") (rLit "ColorResource"), rWs,
  Re.opt (Re.cls (fun c => c == 33 || c == 63))]

/-- Go: `(?:func|var)\s+[A-Za-z_][A-Za-z0-9_]*[^{\n\r]*->\s*(?:ImageResource|ColorResource)|\bvar\s+[A-Za-z_][A-Za-z0-9_]*\s*:\s*(?:ImageResource|ColorResource)\s*\{` -/
def swiftResourceReturnTypeRe : Re := Re.alt
  (rSeq [Re.alt (rLit "func") (rLit "var"), rWsPlus,
    Re.cls isIdentFirst, Re.starCls isIdentByte,
    Re.starCls (fun c => c != 123 && c != 10 && c != 13),
    rLit "->", rWs, Re.alt (rLit "ImageResource") (rLit "ColorResource")])
  (rSeq [Re.wb, rLit "var", rWsPlus,
    Re.cls isIdentFirst, Re.starCls isIdentByte, rWs, rLit ":", rWs,
    Re.alt (rLit "ImageResource") (rLit "ColorResource"), rWs, rOpenBrace])

/-- Go: `\breturn\s+\.([A-Za-z_][A-Za-z0-9_]*)` -/
def swiftReturnEnumMemberRe : Re := rSeq [Re.wb,
  rLit "return", rWsPlus, rLit ".", identGroup 1]

/-- Go: `\.\s*([A-Za-z_][A-Za-z0-9_]*)` -/
def swiftEnumMemberRefRe : Re := rSeq [rLit ".", rWs, identGroup 1]

/-- Go (in `extractEnumIdentifiersForSwiftVar`):
`\b<var>(?:\s*:\s*[^=\n\r]+)?\s*=\s*\[([^\]]*)\]` -/
def varListAssignRe (varName : Str) : Re := rSeq [Re.wb, Re.lit varName,
  Re.opt (rSeq [rWs, rLit ":", rWs, Re.plusCls (fun c => c != 61 && c != 10 && c != 13)]),
  rWs, rLit "=", rWs, rLit "[", Re.group 1 (Re.starCls (fun c => c != 93)), rLit "]"]

/-- Go (in `extractEnumIdentifiersForSwiftVar`):
`\b<var>\s*\.append\s*\(\s*\.([A-Za-z_][A-Za-z0-9_]*)` -/
def varAppendRe (varName : Str) : Re := rSeq [Re.wb, Re.lit varName,
  rWs, rLit ".append", rWs, rLit "(", rWs, rLit ".", identGroup 1]

/-- Go (in `extractEnumIdentifiersForSwiftVar`):
`\b<var>\s*\.insert\s*\(\s*\.([A-Za-z_][A-Za-z0-9_]*)` -/
def varInsertRe (varName : Str) : Re := rSeq [Re.wb, Re.lit varName,
  rWs, rLit ".insert", rWs, rLit "(", rWs, rLit ".", identGroup 1]

/-- Go (in `extractEnumIdentifiersForSwiftVar`):
`\b<var>(?:\s*:\s*[^=\n\r]+)?\s*=\s*\.([A-Za-z_][A-Za-z0-9_]*)` -/
def varScalarAssignRe (varName : Str) : Re := rSeq [Re.wb, Re.lit varName,
  Re.opt (rSeq [rWs, rLit ":", rWs, Re.plusCls (fun c => c != 61 && c != 10 && c != 13)]),
  rWs, rLit "=", rWs, rLit ".", identGroup 1]

/-- Go (in `extractObjCImageNamedVariableReferences`): `\b<var>\s*=\s*([^;]+);` -/
def varObjcAssignRe (varName : Str) : Re := rSeq [Re.wb, Re.lit varName,
  rWs, rLit "=", rWs, Re.group 1 (Re.plusCls (fun c => c != 59)), rLit ";"]

/-- Go (in `extractObjCStringLiterals`): `@\"([A-Za-z0-9._ -]+)\"` -/
def objcStringLiteralRe : Re := rSeq [rLit "@", rQuote, assetNameGroup 1, rQuote]

/-- Go (in `extractSwiftLabeledResourceArgumentReferences`):
`\b<label>\s*:\s*\.([A-Za-z_][A-Za-z0-9_]*)` -/
def labeledArgumentRe (label : Str) : Re := rSeq [Re.wb, Re.lit label,
  rWs, rLit ":", rWs, rLit ".", identGroup 1]

/-! ## Data model -/

/-- `discoveredAsset` of `scanner.go`. -/
structure DiscoveredAsset where
  Name : Str
  CatalogPath : Str
  AssetPath : Str
  AssetType : Str
  deriving DecidableEq

/-- `sourceAssetReference` of `scanner.go`. -/
structure SourceAssetReference where
  Name : Str
  AssetType : Str
  deriving DecidableEq

/-- `sourceAssetTypeKey` of `scanner.go`: `assetType + "\x00" + name`. -/
def sourceAssetTypeKey (name assetType : Str) : Str := assetType ++ 0 :: name

/-! ## Reference extractors (`scanner.go`) -/

/-- `extractIBAssetReferences`: attribute-value and named-tag IB matches,
trimmed and deduplicated in emission order. -/
def extractIBAssetReferences (content : Str) : List Str :=
  let ms := reFindAll ibImageStateRefRe content ++ reFindAll ibNamedAssetTagRefRe content
  ms.foldl (fun out m =>
    let name := goTrimSpace (m.cap 1)
    if name == [] then out
    else if out.contains name then out
    else out ++ [name]) []

/-- `extractSwiftResourceIdentifiers`: the identifiers captured by
`swiftResourceRefRe` (not deduplicated in the source either). -/
def extractSwiftResourceIdentifiers (content : Str) : List Str :=
  (reFindAll swiftResourceRefRe content).foldl (fun acc m =>
    if m.cap 1 == [] then acc else acc ++ [m.cap 1]) []

/-- The scanning loop of `findMatchingBrace` (depth as in the Go `int`). -/
def findMatchingBraceAux : Str → Nat → Int → Option Nat
  | [], _, _ => none
  | c :: rest, i, depth =>
    if c == 123 then findMatchingBraceAux rest (i + 1) (depth + 1)
    else if c == 125 then
      if depth - 1 == 0 then some i else findMatchingBraceAux rest (i + 1) (depth - 1)
    else findMatchingBraceAux rest (i + 1) depth

/-- `findMatchingBrace`: the index of the brace closing the one at `openIdx`
(`none` models Go's `-1`). -/
def findMatchingBrace (content : Str) (openIdx : Nat) : Option Nat :=
  match content.drop openIdx with
  | c :: rest => if c == 123 then findMatchingBraceAux (c :: rest) openIdx 0 else none
  | [] => none

/-- `extractSwiftResourceReturnBodies`: the brace-balanced bodies following
matches of `swiftResourceReturnTypeRe`. -/
def extractSwiftResourceReturnBodies (content : Str) : List Str :=
  (reFindAll swiftResourceReturnTypeRe content).foldl (fun bodies m =>
    match goIndex [123] (content.drop m.start) with
    | none => bodies
    | some openBrace =>
      let openIdx := m.start + openBrace
      match findMatchingBrace content openIdx with
      | none => bodies
      | some closeIdx =>
        if closeIdx ≤ openIdx then bodies
        else bodies ++ [(content.drop (openIdx + 1)).take (closeIdx - openIdx - 1)]) []

/-- `extractEnumIdentifiersForSwiftVar`: the `.ident` enum members flowing
into a typed variable, via list assignment, `append`, `insert`, and scalar
assignment, deduplicated in emission order. -/
def extractEnumIdentifiersForSwiftVar (content varName : Str) : List Str :=
  let push := fun (out : List Str) (identifier : Str) =>
    if identifier == [] then out
    else if out.contains identifier then out
    else out ++ [identifier]
  let out := (reFindAll (varListAssignRe varName) content).foldl (fun out m =>
    (reFindAll swiftEnumMemberRefRe (m.cap 1)).foldl
      (fun out em => push out (goTrimSpace (em.cap 1))) out) []
  let out := (reFindAll (varAppendRe varName) content).foldl
    (fun out m => push out (goTrimSpace (m.cap 1))) out
  let out := (reFindAll (varInsertRe varName) content).foldl
    (fun out m => push out (goTrimSpace (m.cap 1))) out
  (reFindAll (varScalarAssignRe varName) content).foldl
    (fun out m => push out (goTrimSpace (m.cap 1))) out

/-- `extractSwiftTypedResourceIdentifiers`: identifiers reaching typed
resource variables, plus `return .ident` members inside bodies of
resource-returning functions and computed properties. -/
def extractSwiftTypedResourceIdentifiers (content : Str) : List Str :=
  let mergedMatches := reFindAll swiftTypedResourceVarRe content ++
    reFindAll swiftTypedResourceVarInitRe content ++
    reFindAll swiftTypedResourceScalarVarRe content
  let push := fun (out : List Str) (identifier : Str) =>
    if out.contains identifier then out else out ++ [identifier]
  let identifiers := mergedMatches.foldl (fun out m =>
    if goTrimSpace (m.cap 1) == [] then out
    else (extractEnumIdentifiersForSwiftVar content (m.cap 1)).foldl push out) []
  (extractSwiftResourceReturnBodies content).foldl (fun out body =>
    (reFindAll swiftReturnEnumMemberRe body).foldl (fun out m =>
      let identifier := goTrimSpace (m.cap 1)
      if identifier == [] then out else push out identifier) out) identifiers

/-- `extractObjCStringLiterals` (not deduplicated in the source either). -/
def extractObjCStringLiterals (content : Str) : List Str :=
  (reFindAll objcStringLiteralRe content).foldl (fun out m =>
    let name := goTrimSpace (m.cap 1)
    if name == [] then out else out ++ [name]) []

/-- `extractObjCImageNamedVariableReferences`: string literals assigned in the
same file to a variable passed to `imageNamed:`. -/
def extractObjCImageNamedVariableReferences (content : Str) : List Str :=
  (reFindAll objcImageNamedVariableRefRe content).foldl (fun names m =>
    if goTrimSpace (m.cap 1) == [] then names
    else
      (reFindAll (varObjcAssignRe (m.cap 1)) content).foldl (fun names am =>
        (extractObjCStringLiterals (am.cap 1)).foldl (fun names literal =>
          if names.contains literal then names else names ++ [literal]) names) names) []

/-- `resourceTypeToAssetType`. -/
def resourceTypeToAssetType (resourceType : Str) : Str :=
  if resourceType == str "ImageResource" then str "imageset"
  else if resourceType == str "ColorResource" then str "colorset"
  else []

/-- Look up the asset-type set recorded for a label (empty when absent). -/
def labelTypes (labelAssetTypes : List (Str × List Str)) (label : Str) : List Str :=
  match labelAssetTypes.find? (fun e => e.1 == label) with
  | some e => e.2
  | none => []

/-- `extractSwiftLabeledResourceArgumentReferences`: call-site `label: .ident`
occurrences for the labels collected by the prepass, emitted with each mapped
asset type and deduplicated by `sourceAssetTypeKey`.  (Go sorts the label-map
keys before iterating.) -/
def extractSwiftLabeledResourceArgumentReferences (content : Str)
    (labelAssetTypes : List (Str × List Str)) : List SourceAssetReference :=
  if labelAssetTypes == [] then []
  else
    let labels := sortStrs (labelAssetTypes.map (fun e => e.1))
    (labels.foldl (fun (st : List SourceAssetReference × List Str) label =>
      (reFindAll (labeledArgumentRe label) content).foldl (fun st m =>
        let name := goTrimSpace (m.cap 1)
        if name == [] then st
        else
          (labelTypes labelAssetTypes label).foldl (fun st assetType =>
            let key := sourceAssetTypeKey name assetType
            if st.2.contains key then st
            else (st.1 ++ [⟨name, assetType⟩], st.2 ++ [key])) st) st) ([], [])).1

/-- `extractExplicitSourceAssetReferences`: the explicit typed matchers in
their source order, sharing one seen-set keyed by `sourceAssetTypeKey`. -/
def extractExplicitSourceAssetReferences (content : Str)
    (labelAssetTypes : List (Str × List Str)) : List SourceAssetReference :=
  let appendTyped := fun (st : List SourceAssetReference × List Str) (re : Re) (assetType : Str) =>
    (reFindAll re content).foldl (fun st m =>
      let name := goTrimSpace (m.cap 1)
      if name == [] then st
      else
        let key := sourceAssetTypeKey name assetType
        if st.2.contains key then st
        else (st.1 ++ [⟨name, assetType⟩], st.2 ++ [key])) st
  let st : List SourceAssetReference × List Str := ([], [])
  let st := appendTyped st swiftNamedImageAssetRefRe (str "imageset")
  let st := appendTyped st swiftNamedColorAssetRefRe (str "colorset")
  let st := appendTyped st swiftNamedDataAssetRefRe (str "dataset")
  let st := appendTyped st swiftUIImageAssetRefRe (str "imageset")
  let st := appendTyped st swiftUIColorAssetRefRe (str "colorset")
  let st := (extractSwiftLabeledResourceArgumentReferences content labelAssetTypes).foldl
    (fun st ref =>
      let key := sourceAssetTypeKey ref.Name ref.AssetType
      if st.2.contains key then st
      else (st.1 ++ [ref], st.2 ++ [key])) st
  let st := appendTyped st objcImageNamedAssetRefRe (str "imageset")
  let st := appendTyped st objcColorNamedAssetRefRe (str "colorset")
  let st := appendTyped st objcDataAssetNameRefRe (str "dataset")
  let st := (extractObjCImageNamedVariableReferences content).foldl (fun st name =>
    let key := sourceAssetTypeKey name (str "imageset")
    if st.2.contains key then st
    else (st.1 ++ [⟨name, str "imageset"⟩], st.2 ++ [key])) st
  st.1

/-! ## Candidate index (`scanner.go`) -/

/-- Go's `[]rune(name)` conversion (invalid bytes become U+FFFD). -/
def strToRunes (s : Str) : List Nat := (utf8Decode s).map (fun d => d.1)

/-- Go's `string(runes)` conversion. -/
def runesToStr (rs : List Nat) : Str := (rs.map utf8EncodeChar).flatten

/-- `swiftIdentifierVariants`: the leading-digit variant `_<digits><Rest>`. -/
def swiftIdentifierVariants (name : Str) : List Str :=
  if name == [] then []
  else
    let leadingDigits := countRun (fun c => 48 ≤ c && c ≤ 57) name
    if leadingDigits == 0 then []
    else
      let runes := strToRunes name
      let runeDigitCount := countRun unicodeIsDigit runes
      let runes2 :=
        if runeDigitCount < runes.length && unicodeIsLetter (runes.getD runeDigitCount 0) then
          runes.set runeDigitCount (unicodeToUpper (runes.getD runeDigitCount 0))
        else runes
      [95 :: runesToStr runes2]

/-- `swiftResourceCandidatesForAsset`: the raw name, the camelized form
(splitting on non-letter/digit runes, byte-slicing `p[:1]` for the upper-cased
head exactly as the Go source does), the `Image`/`Color`/`Data` suffix trims,
and the leading-digit variants, deduplicated in order. -/
def swiftResourceCandidatesForAsset (assetName assetType : Str) : List Str :=
  let candidates := [assetName]
  let parts := fieldsFunc (fun r => !(unicodeIsLetter r) && !(unicodeIsDigit r)) assetName
  match parts with
  | [] => candidates
  | p0 :: restParts =>
    let camel := goToLower p0 ++ (restParts.map (fun p =>
      if p == [] then [] else goToUpper (p.take 1) ++ p.drop 1)).flatten
    let candidates :=
      if camel != [] && camel != assetName then candidates ++ [camel] else candidates
    let candidates :=
      if assetType == str "imageset" && (str "Image").isSuffixOf assetName &&
          assetName.length > (str "Image").length then
        candidates ++ [goTrimSuf assetName (str "Image")]
      else candidates
    let candidates :=
      if assetType == str "colorset" && (str "Color").isSuffixOf assetName &&
          assetName.length > (str "Color").length then
        candidates ++ [goTrimSuf assetName (str "Color")]
      else candidates
    let candidates :=
      if assetType == str "dataset" && (str "Data").isSuffixOf assetName &&
          assetName.length > (str "Data").length then
        candidates ++ [goTrimSuf assetName (str "Data")]
      else candidates
    candidates.foldl (fun out c =>
      if c == [] then out
      else
        let out := if out.contains c then out else out ++ [c]
        (swiftIdentifierVariants c).foldl (fun out v =>
          if v == [] then out
          else if out.contains v then out
          else out ++ [v]) out) []

/-- `containsAssetPath`. -/
def containsAssetPath (assets : List DiscoveredAsset) (assetPath : Str) : Bool :=
  assets.any (fun a => a.AssetPath == assetPath)

/-- One insertion step of `buildSwiftResourceCandidateIndex` (the Go map is
modelled as an association list in key-insertion order). -/
def indexInsert (index : List (Str × List DiscoveredAsset)) (key : Str)
    (asset : DiscoveredAsset) : List (Str × List DiscoveredAsset) :=
  match index.find? (fun e => e.1 == key) with
  | some e =>
    if containsAssetPath e.2 asset.AssetPath then index
    else index.map (fun e2 => if e2.1 == key then (e2.1, e2.2 ++ [asset]) else e2)
  | none => index ++ [(key, [asset])]

/-- `buildSwiftResourceCandidateIndex`. -/
def buildSwiftResourceCandidateIndex (discoveredAssets : List DiscoveredAsset) :
    List (Str × List DiscoveredAsset) :=
  discoveredAssets.foldl (fun index asset =>
    (swiftResourceCandidatesForAsset asset.Name asset.AssetType).foldl
      (fun index candidate => indexInsert index candidate asset) index) []

/-- Candidate-index lookup (`swiftResourceCandidates[identifier]`). -/
def indexLookup (index : List (Str × List DiscoveredAsset)) (key : Str) :
    Option (List DiscoveredAsset) :=
  (index.find? (fun e => e.1 == key)).map (fun e => e.2)

/-! ## Resolver helpers (`scanner.go`) -/

/-- One iteration of `selectClosestAssets`'s loop: a higher score resets the
best list, an equal score extends it. -/
def selectStep (sourcePath : Str) (st : List DiscoveredAsset × Int)
    (candidate : DiscoveredAsset) : List DiscoveredAsset × Int :=
  let score : Int := (commonPathPrefixSegments sourcePath candidate.CatalogPath : Nat)
  if score > st.2 then ([candidate], score)
  else if score == st.2 then (st.1 ++ [candidate], st.2)
  else st

/-- `selectClosestAssets`: keep the candidates whose catalog path shares the
most leading path segments with the referencing source file. -/
def selectClosestAssets (sourcePath : Str) (candidates : List DiscoveredAsset) :
    List DiscoveredAsset :=
  if candidates.length ≤ 1 then candidates
  else (candidates.foldl (selectStep sourcePath) ([], -1)).1

/-- `isAssetSetDir`. -/
def isAssetSetDir (name : Str) : Bool :=
  filepathExt name == str ".imageset" || filepathExt name == str ".colorset" ||
  filepathExt name == str ".dataset"

/-- `catalogPathForAsset`: cut at the first occurrence of `.xcassets/`
(`strings.Index`), falling back to the whole path when it itself ends in
`.xcassets`, and empty otherwise. -/
def catalogPathForAsset (assetPath : Str) : Str :=
  let marker := str ".xcassets" ++ [47]
  match goIndex marker assetPath with
  | none => if (str ".xcassets").isSuffixOf assetPath then assetPath else []
  | some idx => assetPath.take (idx + (str ".xcassets").length)

/-! ## Glob matching (Go `path.Match`, used by `matchesAny`) -/

/-- Strip the leading `*`s of a pattern chunk (`scanChunk`'s first loop). -/
def stripStars : Str → Bool × Str
  | 42 :: rest => (true, (stripStars rest).2)
  | p => (false, p)

/-- The scan loop of `scanChunk`: the byte length of the chunk up to the next
unbracketed `*`. -/
def scanChunkLen : Str → Bool → Nat
  | [], _ => 0
  | c :: rest, inrange =>
    if c == 92 then
      match rest with
      | [] => 1
      | _ :: rest2 => 2 + scanChunkLen rest2 inrange
    else if c == 91 then 1 + scanChunkLen rest true
    else if c == 93 then 1 + scanChunkLen rest false
    else if c == 42 && !inrange then 0
    else 1 + scanChunkLen rest inrange

/-- Go `path.scanChunk`. -/
def scanChunk (pattern : Str) : Bool × Str × Str :=
  let sp := stripStars pattern
  let i := scanChunkLen sp.2 false
  (sp.1, sp.2.take i, sp.2.drop i)

/-- Go `path.getEsc`: one (possibly escaped) class character. -/
def getEsc (chunk : Str) : Except Unit (Nat × Str) :=
  match chunk with
  | [] => .error ()
  | c :: rest =>
    if c == 45 || c == 93 then .error ()
    else
      let chunk2 := if c == 92 then rest else c :: rest
      if chunk2 == [] then .error ()
      else
        let d := utf8DecodeRune chunk2
        if d.1 == 0xFFFD && d.2 == 1 then .error ()
        else
          let nchunk := chunk2.drop d.2
          if nchunk == [] then .error () else .ok (d.1, nchunk)

/-- The range-parsing loop of Go `path.matchChunk`'s `[` case. -/
def matchRanges (fuel : Nat) (r : Nat) (chunk : Str) (matched : Bool) (nrange : Nat) :
    Except Unit (Bool × Str) :=
  match fuel with
  | 0 => .error ()
  | fuel + 1 =>
    if chunk != [] && chunk.headD 0 == 93 && nrange > 0 then .ok (matched, chunk.tail)
    else
      match getEsc chunk with
      | .error _ => .error ()
      | .ok (lo, chunk2) =>
        let hiStep : Except Unit (Nat × Str) :=
          if chunk2.headD 0 == 45 then getEsc chunk2.tail else .ok (lo, chunk2)
        match hiStep with
        | .error _ => .error ()
        | .ok (hi, chunk3) =>
          matchRanges fuel r chunk3 (matched || (lo ≤ r && r ≤ hi)) (nrange + 1)

/-- Go `path.matchChunk` (with the `failed` flag of the current
implementation, which keeps validating the pattern after a mismatch). -/
def matchChunk (fuel : Nat) (chunk s : Str) (failed : Bool) : Except Unit (Str × Bool) :=
  match fuel with
  | 0 => .error ()
  | fuel + 1 =>
    match chunk with
    | [] => if failed then .ok ([], false) else .ok (s, true)
    | c :: rest =>
      let failed := failed || s == []
      if c == 91 then
        let r := if failed then 0 else (utf8DecodeRune s).1
        let s2 := if failed then s else s.drop (max (utf8DecodeRune s).2 1)
        let negStep : Str × Bool :=
          match rest with
          | 94 :: r2 => (r2, true)
          | _ => (rest, false)
        match matchRanges (negStep.1.length + 1) r negStep.1 false 0 with
        | .error _ => .error ()
        | .ok (matched, chunk3) =>
          matchChunk fuel chunk3 s2 (if matched == negStep.2 then true else failed)
      else if c == 63 then
        if failed then matchChunk fuel rest s failed
        else
          let failed2 := s.headD 0 == 47
          matchChunk fuel rest (s.drop (max (utf8DecodeRune s).2 1)) (failed || failed2)
      else if c == 92 then
        match rest with
        | [] => .error ()
        | e :: rest2 =>
          if failed then matchChunk fuel rest2 s failed
          else
            match s with
            | [] => matchChunk fuel rest2 s true
            | sc :: srest => matchChunk fuel rest2 srest (failed || (e != sc))
      else
        if failed then matchChunk fuel rest s failed
        else
          match s with
          | [] => matchChunk fuel rest s true
          | sc :: srest => matchChunk fuel rest srest (failed || (c != sc))

mutual

/-- The `Pattern` loop of Go `path.Match` (fuelled; the fuel passed by
`pathMatch` is ample because every iteration consumes pattern or subject). -/
def pathMatchLoop (fuel : Nat) (pattern name : Str) : Except Unit Bool :=
  match fuel with
  | 0 => .error ()
  | fuel + 1 =>
    match pattern with
    | [] => .ok (name == [])
    | _ =>
      let sc := scanChunk pattern
      let star := sc.1
      let chunk := sc.2.1
      let rest := sc.2.2
      if star && chunk == [] then .ok (!(goContains name [47]))
      else
        match matchChunk (chunk.length + 1) chunk name false with
        | .error _ => .error ()
        | .ok (t, ok) =>
          if ok && (t == [] || rest != []) then pathMatchLoop fuel rest t
          else if star then pathMatchStarLoop fuel chunk rest name
          else .ok false

/-- The star-skipping inner loop of Go `path.Match`. -/
def pathMatchStarLoop (fuel : Nat) (chunk pattern name : Str) : Except Unit Bool :=
  match fuel with
  | 0 => .error ()
  | fuel + 1 =>
    match name with
    | [] => .ok false
    | c :: restName =>
      if c == 47 then .ok false
      else
        match matchChunk (chunk.length + 1) chunk restName false with
        | .error _ => .error ()
        | .ok (t, ok) =>
          if ok then
            if pattern == [] && t != [] then pathMatchStarLoop fuel chunk pattern restName
            else pathMatchLoop fuel pattern t
          else pathMatchStarLoop fuel chunk pattern restName

end

/-- Go `path.Match` with ample fuel. -/
def pathMatch (pattern name : Str) : Except Unit Bool :=
  pathMatchLoop (pattern.length + name.length + 1) pattern name

/-- `matchesAny` of `scanner.go`: directory-prefix patterns (ending `/`)
match the path itself or any `/`-separated descendant; all other patterns go
through `path.Match`.  (`filepath.ToSlash` is the identity on Unix.) -/
def matchesAny (candidatePath : Str) (patterns : List Str) : Bool :=
  if patterns == [] then false
  else
    let normalized := goTrimPre (goTrimPre candidatePath (str "./")) (str "/")
    patterns.any (fun pattern =>
      let p0 := goTrimSpace pattern
      if p0 == [] then false
      else
        let p := goTrimPre (goTrimPre p0 (str "./")) (str "/")
        if (str "/").isSuffixOf p then
          let base := goTrimSuf p (str "/")
          normalized == base || (base ++ [47]).isPrefixOf normalized
        else
          match pathMatch p normalized with
          | .ok ok => ok
          | .error _ => false)

/-! ## Filesystem model and walks

The directory tree the scanner walks is modelled as a tree of named entries.
`fs.WalkDir` visits a directory before its children; `filepath.Rel(root, p)`
is `.` for the root itself and the slash-joined child names below it. -/

mutual

/-- A filesystem entry: a file with contents, or a directory.  (`FsList` is a
mutually defined list so the walks below are mutual structural recursions.) -/
inductive FsEntry where
  | file (name : Str) (content : Str)
  | dir (name : Str) (entries : FsList)

/-- A directory listing, in the order `fs.WalkDir` visits it. -/
inductive FsList where
  | nil
  | cons (e : FsEntry) (rest : FsList)

end

/-- Build a directory listing from a Lean list. -/
def fsList : List FsEntry → FsList
  | [] => .nil
  | e :: rest => .cons e (fsList rest)

/-- A directory entry from a Lean list of children. -/
def fsDir (name : Str) (es : List FsEntry) : FsEntry := .dir name (fsList es)

/-- The entry's name (Go `d.Name()`). -/
def FsEntry.name : FsEntry → Str
  | .file n _ => n
  | .dir n _ => n

/-- The relative path of a child below `rel` (as `filepath.Rel` yields it). -/
def childRel (rel name : Str) : Str :=
  if rel == str "." then name else rel ++ 47 :: name

mutual

/-- The `collectAssets` walk callback on one entry: count catalogs, emit
discovered assets, honour exclude (pruning) and include (non-pruning) rules;
files contribute nothing here. -/
def visitAssets (inc exc : List Str) : Str → Str → FsEntry → Nat × List DiscoveredAsset →
    Nat × List DiscoveredAsset
  | _, relPath, .file _ _, st =>
    if matchesAny relPath exc then st
    else st
  | absPath, relPath, .dir name es, st =>
    if matchesAny relPath exc then st
    else
      let st :=
        if inc.length > 0 && !(matchesAny relPath inc) then st
        else if (str ".xcassets").isSuffixOf name then (st.1 + 1, st.2)
        else if isAssetSetDir name then
          let assetExt := goTrimPre (filepathExt name) (str ".")
          let nm := goTrimSuf name (filepathExt name)
          if nm != [] then
            let catalogPath := catalogPathForAsset absPath
            if catalogPath == [] then st
            else (st.1, st.2 ++ [⟨nm, catalogPath, absPath, assetExt⟩])
          else st
        else st
      visitAssetsList inc exc absPath relPath es st

/-- Fold `visitAssets` over a directory's children in listing order. -/
def visitAssetsList (inc exc : List Str) : Str → Str → FsList →
    Nat × List DiscoveredAsset → Nat × List DiscoveredAsset
  | _, _, .nil, st => st
  | absPath, relPath, .cons e rest, st =>
    let st := visitAssets inc exc (absPath ++ 47 :: e.name) (childRel relPath e.name) e st
    visitAssetsList inc exc absPath relPath rest st

end

/-- Insert into a list of assets sorted by `AssetPath`. -/
def insertAssetSorted (a : DiscoveredAsset) : List DiscoveredAsset → List DiscoveredAsset
  | [] => [a]
  | b :: bs => if lexLe a.AssetPath b.AssetPath then a :: b :: bs else b :: insertAssetSorted a bs

/-- Go `slices.SortFunc` by `strings.Compare` on `AssetPath`. -/
def sortAssetsByPath (l : List DiscoveredAsset) : List DiscoveredAsset :=
  l.foldr insertAssetSorted []

/-- `collectAssets`: the walk from the root (whose own relative path is `.`),
then the stabilising sort by asset path.  (The separately returned
`assetNames` list of the Go function is unused by `Scan` and not modelled.)
Walk errors cannot arise over the pure tree. -/
def collectAssets (root : Str) (fs : FsList) (inc exc : List Str) :
    Nat × List DiscoveredAsset :=
  let st := visitAssets inc exc root (str ".") (.dir (baseName root) fs) (0, [])
  (st.1, sortAssetsByPath st.2)

/-- Membership of an extension in `sourceExtensions`. -/
def isSourceExt (ext : Str) : Bool :=
  ext == str ".swift" || ext == str ".m" || ext == str ".h" ||
  ext == str ".xib" || ext == str ".storyboard"

mutual

/-- The file-collecting walk of `collectUsedAssets`: skip `.git` directories
and excluded subtrees; keep eligible source files (not excluded, included,
not under `.xcassets/`, recognised extension) in walk order. -/
def visitUsed (inc exc : List Str) : Str → Str → FsEntry → List (Str × Str) →
    List (Str × Str)
  | absPath, relPath, .dir name es, acc =>
    if name == str ".git" then acc
    else if matchesAny relPath exc then acc
    else visitUsedList inc exc absPath relPath es acc
  | absPath, relPath, .file _ content, acc =>
    if matchesAny relPath exc then acc
    else if inc.length > 0 && !(matchesAny relPath inc) then acc
    else if goContains absPath (str ".xcassets" ++ [47]) then acc
    else if isSourceExt (goToLower (filepathExt absPath)) then acc ++ [(absPath, content)]
    else acc

/-- Fold `visitUsed` over children in listing order. -/
def visitUsedList (inc exc : List Str) : Str → Str → FsList →
    List (Str × Str) → List (Str × Str)
  | _, _, .nil, acc => acc
  | absPath, relPath, .cons e rest, acc =>
    let acc := visitUsed inc exc (absPath ++ 47 :: e.name) (childRel relPath e.name) e acc
    visitUsedList inc exc absPath relPath rest acc

end

/-- The eligible source files of the used-assets walk, in walk order. -/
def usedWalkFiles (root : Str) (fs : FsList) (inc exc : List Str) :
    List (Str × Str) :=
  visitUsed inc exc root (str ".") (.dir (baseName root) fs) []

mutual

/-- The walk of `collectSwiftResourceArgumentLabelAssetTypes`: skip `.git`
directories and excluded subtrees; keep `.swift` files not under `.xcassets/`
(the Go callback checks the `.xcassets` containment before the exclude and
include rules for files). -/
def visitLabel (inc exc : List Str) : Str → Str → FsEntry → List (Str × Str) →
    List (Str × Str)
  | absPath, relPath, .dir name es, acc =>
    if name == str ".git" then acc
    else if matchesAny relPath exc then acc
    else visitLabelList inc exc absPath relPath es acc
  | absPath, relPath, .file _ content, acc =>
    if goContains absPath (str ".xcassets" ++ [47]) then acc
    else if matchesAny relPath exc then acc
    else if inc.length > 0 && !(matchesAny relPath inc) then acc
    else if goToLower (filepathExt absPath) == str ".swift" then acc ++ [(absPath, content)]
    else acc

/-- Fold `visitLabel` over children in listing order. -/
def visitLabelList (inc exc : List Str) : Str → Str → FsList →
    List (Str × Str) → List (Str × Str)
  | _, _, .nil, acc => acc
  | absPath, relPath, .cons e rest, acc =>
    let acc := visitLabel inc exc (absPath ++ 47 :: e.name) (childRel relPath e.name) e acc
    visitLabelList inc exc absPath relPath rest acc

end

/-- The `.swift` files visited by the label prepass, in walk order. -/
def labelWalkFiles (root : Str) (fs : FsList) (inc exc : List Str) :
    List (Str × Str) :=
  visitLabel inc exc root (str ".") (.dir (baseName root) fs) []

/-- `osReadFile` of the authoritative variant (src/unnamed/part_007): in the
model the OS read of a file present in the tree always succeeds, and invalid
UTF-8 yields the error `fmt.Errorf("invalid UTF-8 encoding in %s", path)`. -/
def osReadFile (path content : Str) : Except Str Str :=
  if utf8Valid content then .ok content
  else .error (str "invalid UTF-8 encoding in " ++ path)

/-- Record one asset type for a label (the Go `map[string]map[string]struct{}`
modelled as an association list in insertion order). -/
def labelsInsert (labels : List (Str × List Str)) (label assetType : Str) :
    List (Str × List Str) :=
  match labels.find? (fun e => e.1 == label) with
  | some e =>
    if e.2.contains assetType then labels
    else labels.map (fun e2 => if e2.1 == label then (e2.1, e2.2 ++ [assetType]) else e2)
  | none => labels ++ [(label, [assetType])]

/-- The per-file accumulation step of the label prepass. -/
def accumLabels (labels : List (Str × List Str)) (content : Str) : List (Str × List Str) :=
  (reFindAll swiftResourceParameterRe content).foldl (fun labels m =>
    let label := goTrimSpace (m.cap 1)
    let resourceType := goTrimSpace (m.cap 2)
    if label == [] || label == str "_" || resourceType == [] then labels
    else
      let assetType := resourceTypeToAssetType resourceType
      if assetType == [] then labels
      else labelsInsert labels label assetType) labels

/-- `collectSwiftResourceArgumentLabelAssetTypes`: read every prepass file in
walk order, aborting on the first read error (as the erroring Go walk does). -/
def collectSwiftResourceArgumentLabelAssetTypes (root : Str) (fs : FsList)
    (inc exc : List Str) : Except Str (List (Str × List Str)) :=
  (labelWalkFiles root fs inc exc).foldl (fun acc pc =>
    match acc with
    | .error e => .error e
    | .ok labels =>
      match osReadFile pc.1 pc.2 with
      | .error e => .error e
      | .ok content => .ok (accumLabels labels content)) (.ok [])

/-! ## Resolver / aggregator (`scanner.go`) -/

/-- The Go map `assetPathsByName` is filled by one append per asset, so the
list stored under a name is the filter of the discovered assets by name. -/
def assetPathsByName (assets : List DiscoveredAsset) (name : Str) : List DiscoveredAsset :=
  assets.filter (fun a => a.Name == name)

/-- The Go map `assetPathsByTypeAndName`, keyed by `sourceAssetTypeKey`. -/
def assetPathsByTypeAndName (assets : List DiscoveredAsset) (key : Str) :
    List DiscoveredAsset :=
  assets.filter (fun a => sourceAssetTypeKey a.Name a.AssetType == key)

/-- Set insertion into the used set (Go `usedSet[path] = struct{}{}`). -/
def insertUsed (usedSet : List Str) (p : Str) : List Str :=
  if usedSet.contains p then usedSet else usedSet ++ [p]

/-- `markUsed` of `collectUsedAssets`: resolve the reference against the
typed or untyped map, keep the locality-closest candidates, insert their
asset paths. -/
def markUsed (assets : List DiscoveredAsset) (sourcePath name assetType : Str)
    (usedSet : List Str) : List Str :=
  let candidates :=
    if assetType != [] then assetPathsByTypeAndName assets (sourceAssetTypeKey name assetType)
    else assetPathsByName assets name
  if candidates == [] then usedSet
  else (selectClosestAssets sourcePath candidates).foldl
    (fun s a => insertUsed s a.AssetPath) usedSet

/-- One Swift-identifier resolution step of a worker: look the identifier up
in the candidate index, keep the locality-closest assets, insert their paths;
an identifier absent from the index contributes nothing. -/
def resolveIdentStep (index : List (Str × List DiscoveredAsset)) (path : Str)
    (s : List Str) (identifier : Str) : List Str :=
  match indexLookup index identifier with
  | none => s
  | some matched =>
    (selectClosestAssets path matched).foldl (fun s a => insertUsed s a.AssetPath) s

/-- The per-file body of a `collectUsedAssets` worker: IB matchers for
`.storyboard`/`.xib`, the explicit matchers otherwise, and additionally the
Swift typed-resource and direct-resource identifiers for `.swift`. -/
def processFile (assets : List DiscoveredAsset) (index : List (Str × List DiscoveredAsset))
    (labels : List (Str × List Str)) (path content : Str) (usedSet : List Str) : List Str :=
  let ext := goToLower (filepathExt path)
  let usedSet :=
    if ext == str ".storyboard" || ext == str ".xib" then
      (extractIBAssetReferences content).foldl (fun s n => markUsed assets path n [] s) usedSet
    else
      (extractExplicitSourceAssetReferences content labels).foldl
        (fun s r => markUsed assets path r.Name r.AssetType s) usedSet
  if ext == str ".swift" then
    let usedSet := (extractSwiftTypedResourceIdentifiers content).foldl
      (resolveIdentStep index path) usedSet
    (extractSwiftResourceIdentifiers content).foldl (resolveIdentStep index path) usedSet
  else usedSet

/-- `collectUsedAssets`: the label prepass, then the worker fan-out over the
walked files.  Workers run to completion even after an error; the first
published error wins, exactly as the single-slot error channel behaves (in
the model, "first" is walk order). -/
def collectUsedAssets (root : Str) (fs : FsList) (inc exc : List Str)
    (discoveredAssets : List DiscoveredAsset) : Except Str (List Str) :=
  match collectSwiftResourceArgumentLabelAssetTypes root fs inc exc with
  | .error e => .error e
  | .ok labels =>
    let index := buildSwiftResourceCandidateIndex discoveredAssets
    let files := usedWalkFiles root fs inc exc
    let st := files.foldl (fun (st : List Str × Option Str) pc =>
      match osReadFile pc.1 pc.2 with
      | .error e => (st.1, match st.2 with | some e0 => some e0 | none => some e)
      | .ok content => (processFile discoveredAssets index labels pc.1 content st.1, st.2))
      ([], none)
    match st.2 with
    | some e => .error e
    | none => .ok st.1

/-- `Result` of `scanner.go` (`UnusedByFile` as an association list). -/
structure Result where
  AssetCatalogs : Nat
  AssetNames : List Str
  UsedAssets : List Str
  UnusedAssets : List Str
  UnusedByFile : List (Str × List Str)
  deriving DecidableEq

/-- `Options` of `scanner.go` (the worker count only sizes the pool and does
not affect the result, which the model computes sequentially). -/
structure Options where
  Root : Str
  Include : List Str
  Exclude : List Str
  Workers : Int

/-- `buildAssetSummaryNamer`: an asset's summary identifier is its name, or
`name.assetType` when several asset types share the name across the tree. -/
def buildAssetSummaryNamer (discoveredAssets : List DiscoveredAsset)
    (asset : DiscoveredAsset) : Str :=
  let types := (discoveredAssets.filter (fun x => x.Name == asset.Name)).foldl
    (fun acc x => if acc.contains x.AssetType then acc else acc ++ [x.AssetType]) []
  if types.length > 1 then asset.Name ++ 46 :: asset.AssetType else asset.Name

/-- Append an unused asset path under its catalog
(`unusedByFile[catalog] = append(...)`). -/
def unusedByFileAppend (m : List (Str × List Str)) (k v : Str) : List (Str × List Str) :=
  if m.any (fun e => e.1 == k) then
    m.map (fun e => if e.1 == k then (e.1, e.2 ++ [v]) else e)
  else m ++ [(k, [v])]

/-- The aggregation state of `Scan`'s main loop. -/
structure AggState where
  names : List Str
  used : List Str
  unused : List Str
  byFile : List (Str × List Str)

/-- One iteration of `Scan`'s aggregation loop over the discovered assets. -/
def scanAggStep (discoveredAssets : List DiscoveredAsset) (usedAssetPaths : List Str)
    (st : AggState) (asset : DiscoveredAsset) : AggState :=
  let summaryName := buildAssetSummaryNamer discoveredAssets asset
  let names := insertUsed st.names summaryName
  if usedAssetPaths.contains asset.AssetPath then
    { st with names := names, used := insertUsed st.used summaryName }
  else
    { st with names := names,
              unused := insertUsed st.unused summaryName,
              byFile := unusedByFileAppend st.byFile asset.CatalogPath asset.AssetPath }

/-- `Scan`: inventory, used-asset resolution, then aggregation and sorting. -/
def Scan (fs : FsList) (opts : Options) : Except Str Result :=
  let ca := collectAssets opts.Root fs opts.Include opts.Exclude
  match collectUsedAssets opts.Root fs opts.Include opts.Exclude ca.2 with
  | .error e => .error e
  | .ok usedAssetPaths =>
    let st := ca.2.foldl (scanAggStep ca.2 usedAssetPaths) ⟨[], [], [], []⟩
    .ok { AssetCatalogs := ca.1,
          AssetNames := sortStrs st.names,
          UsedAssets := sortStrs st.used,
          UnusedAssets := sortStrs st.unused,
          UnusedByFile := st.byFile.map (fun e => (e.1, sortStrs e.2)) }

/-! ## Verification helpers (specification-side definitions) -/

/-- Delete every directory named `.git` (recursively) from a listing.  Files
named `.git` are kept: the walks only prune directories. -/
def pruneGitList : FsList → FsList
  | .nil => .nil
  | .cons (.file n c) rest => .cons (.file n c) (pruneGitList rest)
  | .cons (.dir n es) rest =>
    if n == str ".git" then pruneGitList rest
    else .cons (.dir n (pruneGitList es)) (pruneGitList rest)

/-- Delete `.git` directories inside one entry (the entry itself is kept). -/
def pruneGitEntry : FsEntry → FsEntry
  | .file n c => .file n c
  | .dir n es => .dir n (pruneGitList es)

/-- The locality score of a candidate for a given source file. -/
def localityScore (sourcePath : Str) (candidate : DiscoveredAsset) : Nat :=
  commonPathPrefixSegments sourcePath candidate.CatalogPath

/-- The locality score as the loop's `Int`. -/
def scoreI (sourcePath : Str) (candidate : DiscoveredAsset) : Int :=
  (localityScore sourcePath candidate : Int)

/-- The running maximum of the locality scores of a candidate list, seeded
with the loop's current best score. -/
def maxScoreFrom (sourcePath : Str) (sc : Int) (l : List DiscoveredAsset) : Int :=
  l.foldl (fun m c => max m (scoreI sourcePath c)) sc

/-- Is `r` an enclosing-catalog prefix of `p`: it ends in `.xcassets` and is
followed in `p` by a path separator? -/
def isEnclosingCatalog (p r : Str) : Bool :=
  (str ".xcassets").isSuffixOf r && (r ++ [47]).isPrefixOf p

/-- The normalized form `matchesAny` reduces a path or pattern to. -/
def normalizePath (p : Str) : Str := goTrimPre (goTrimPre p (str "./")) (str "/")

/-- A labeled-argument reference is witnessed by the label map `L` in file
content `content`: some mapped label has a call-site match whose trimmed
first capture is the (non-empty) reference name, and the reference's asset
type is one of the types mapped for that label. -/
@[reducible] def labeledRefWitness (content : Str) (L : List (Str × List Str))
    (r : SourceAssetReference) : Prop :=
  ∃ lab ∈ L.map (fun e => e.1),
    ∃ m ∈ reFindAll (labeledArgumentRe lab) content,
      goTrimSpace (m.cap 1) = r.Name ∧ r.Name ≠ [] ∧
      r.AssetType ∈ labelTypes L lab

/-- A parameter declaration in file content `c` maps label `l` to asset type
`a`: some `swiftResourceParameterRe` match has trimmed label `l` (neither
empty nor `_`) and a resource type translating to the non-empty type `a`. -/
@[reducible] def labelDeclWitness (c l a : Str) : Prop :=
  ∃ m ∈ reFindAll swiftResourceParameterRe c,
    goTrimSpace (m.cap 1) = l ∧ l ≠ [] ∧ l ≠ str "_" ∧
    resourceTypeToAssetType (goTrimSpace (m.cap 2)) = a ∧ a ≠ []

/-- The labeled-extractor loop state is coherent: the seen-key list mirrors
the emitted references in order, and every emitted reference is witnessed. -/
@[reducible] def labeledStInv (content : Str) (L : List (Str × List Str))
    (st : List SourceAssetReference × List Str) : Prop :=
  st.2 = st.1.map (fun r => sourceAssetTypeKey r.Name r.AssetType) ∧
  ∀ r ∈ st.1, labeledRefWitness content L r

/-! ## Concrete scan inputs used by the theorems -/

/-- Two catalogs in sibling modules holding equally named `icon.imageset`
assets, referenced from a source file in module A (the repository's own
`TestScan_DuplicateAssetNamesAcrossCatalogs` layout). -/
def dupNameTree : FsList := fsList [fsDir (str "M") [
  fsDir (str "A") [
    fsDir (str "X.xcassets") [fsDir (str "icon.imageset") []],
    .file (str "F.swift") (str "let i = UIImage(named: \"icon\")")],
  fsDir (str "B") [
    fsDir (str "X.xcassets") [fsDir (str "icon.imageset") []]]]]

/-- One catalog holding `logo.colorset` and `logo.imageset`, with a
`UIImage(named:)` reference to `logo`. -/
def logoTree : FsList := fsList [fsDir (str "App") [
  fsDir (str "A.xcassets") [fsDir (str "logo.colorset") [], fsDir (str "logo.imageset") []],
  .file (str "V.swift") (str "let _ = UIImage(named: \"logo\")")]]

/-- A labeled-argument scenario: the parameter declaration in `A.swift`, the
call site in `B.swift`. -/
def labeledTree : FsList := fsList [fsDir (str "App") [
  fsDir (str "A.xcassets") [fsDir (str "foo.imageset") []],
  .file (str "A.swift") (str "func setData(icon: ImageResource, t: String) {}"),
  .file (str "B.swift") (str "view.setData(icon: .foo, fieldName: \"x\", value: \"y\")")]]

/-- The same call site without the parameter declaration anywhere. -/
def labeledTreeNoDecl : FsList := fsList [fsDir (str "App") [
  fsDir (str "A.xcassets") [fsDir (str "foo.imageset") []],
  .file (str "B.swift") (str "view.setData(icon: .foo, fieldName: \"x\", value: \"y\")")]]

/-- A tree whose only source file holds invalid UTF-8 bytes. -/
def invalidUtf8Tree : FsList := fsList [fsDir (str "App") [
  fsDir (str "A.xcassets") [fsDir (str "icon.imageset") []],
  .file (str "Bad.swift") [0x6C, 0x65, 0x74, 0xC3]]]

/-- A tree with an asset catalog and an invalid source file inside `.git`. -/
def gitTree : FsList := fsList [
  fsDir (str ".git") [
    fsDir (str "G.xcassets") [fsDir (str "gitasset.imageset") []],
    .file (str "Bad.swift") [0xC3]],
  fsDir (str "App") [fsDir (str "B.xcassets") [fsDir (str "real.imageset") []]]]

/-- Default options over root `/r` with no include or exclude rules. -/
def plainOpts : Options := ⟨str "/r", [], [], 1⟩

/-- The imageset asset of `logoTree` as discovered by the walk. -/
def logoImgAsset : DiscoveredAsset :=
  ⟨str "logo", str "/r/App/A.xcassets", str "/r/App/A.xcassets/logo.imageset", str "imageset"⟩

/-- The colorset asset of `logoTree` as discovered by the walk. -/
def logoClrAsset : DiscoveredAsset :=
  ⟨str "logo", str "/r/App/A.xcassets", str "/r/App/A.xcassets/logo.colorset", str "colorset"⟩

end Xcwrap

/-! # Theorems -/

namespace Xcwrap

/-! ## Shared lemmas -/

theorem insertUsed_mem (s : List Str) (x p : Str) :
    p ∈ insertUsed s x ↔ p ∈ s ∨ p = x := by
  unfold insertUsed
  by_cases h : s.contains x = true
  · simp only [h, if_pos]
    have hx : x ∈ s := by simpa using h
    constructor
    · exact Or.inl
    · rintro (hp | rfl)
      · exact hp
      · exact hx
  · simp only [h, if_neg, Bool.false_eq_true, not_false_eq_true, List.mem_append,
      List.mem_singleton]

theorem foldl_insert_paths_mem (l : List DiscoveredAsset) :
    ∀ (s : List Str) (p : Str),
      p ∈ l.foldl (fun s a => insertUsed s a.AssetPath) s ↔
        p ∈ s ∨ ∃ a ∈ l, p = a.AssetPath := by
  induction l with
  | nil => simp
  | cons a rest ih =>
    intro s p
    rw [List.foldl_cons, ih, insertUsed_mem]
    constructor
    · rintro ((hp | rfl) | ⟨b, hb, rfl⟩)
      · exact Or.inl hp
      · exact Or.inr ⟨a, List.mem_cons_self a rest, rfl⟩
      · exact Or.inr ⟨b, List.mem_cons_of_mem a hb, rfl⟩
    · rintro (hp | ⟨b, hb, rfl⟩)
      · exact Or.inl (Or.inl hp)
      · rcases List.mem_cons.mp hb with rfl | hb
        · exact Or.inl (Or.inr rfl)
        · exact Or.inr ⟨b, hb, rfl⟩

theorem append_nul_inj :
    ∀ (t1 n1 t2 n2 : Str), (0 : Nat) ∉ t1 → (0 : Nat) ∉ t2 →
      t1 ++ 0 :: n1 = t2 ++ 0 :: n2 → t1 = t2 ∧ n1 = n2 := by
  intro t1
  induction t1 with
  | nil =>
    intro n1 t2 n2 _ h2 heq
    cases t2 with
    | nil => simpa using heq
    | cons b t2' =>
      simp only [List.nil_append, List.cons_append, List.cons.injEq] at heq
      exact absurd (heq.1 ▸ List.mem_cons_self b t2') h2
  | cons a t1' ih =>
    intro n1 t2 n2 h1 h2 heq
    cases t2 with
    | nil =>
      simp only [List.cons_append, List.nil_append, List.cons.injEq] at heq
      exact absurd (heq.1 ▸ List.mem_cons_self a t1') h1
    | cons b t2' =>
      simp only [List.cons_append, List.cons.injEq] at heq
      obtain ⟨rfl, heq'⟩ := heq
      have h1' : (0 : Nat) ∉ t1' := fun h => h1 (List.mem_cons_of_mem _ h)
      have h2' : (0 : Nat) ∉ t2' := fun h => h2 (List.mem_cons_of_mem _ h)
      obtain ⟨rfl, rfl⟩ := ih n1 t2' n2 h1' h2' heq'
      exact ⟨rfl, rfl⟩

theorem sourceAssetTypeKey_inj (n1 t1 n2 t2 : Str)
    (h1 : (0 : Nat) ∉ t1) (h2 : (0 : Nat) ∉ t2)
    (h : sourceAssetTypeKey n1 t1 = sourceAssetTypeKey n2 t2) : t1 = t2 ∧ n1 = n2 :=
  append_nul_inj t1 n1 t2 n2 h1 h2 h

theorem le_maxScoreFrom (src : Str) :
    ∀ (l : List DiscoveredAsset) (sc : Int), sc ≤ maxScoreFrom src sc l := by
  intro l
  induction l with
  | nil => intro sc; simp [maxScoreFrom]
  | cons c rest ih =>
    intro sc
    have h := ih (max sc (scoreI src c))
    simp only [maxScoreFrom, List.foldl_cons] at h ⊢
    exact le_trans (le_max_left _ _) h

theorem mem_le_maxScoreFrom (src : Str) :
    ∀ (l : List DiscoveredAsset) (sc : Int) (b : DiscoveredAsset), b ∈ l →
      scoreI src b ≤ maxScoreFrom src sc l := by
  intro l
  induction l with
  | nil => intro sc b hb; simp at hb
  | cons c rest ih =>
    intro sc b hb
    rcases List.mem_cons.mp hb with rfl | hb
    · have h := le_maxScoreFrom src rest (max sc (scoreI src b))
      simp only [maxScoreFrom, List.foldl_cons]
      exact le_trans (le_max_right _ _) h
    · simpa only [maxScoreFrom, List.foldl_cons] using ih _ b hb

theorem maxScoreFrom_le (src : Str) :
    ∀ (l : List DiscoveredAsset) (sc v : Int), sc ≤ v →
      (∀ b ∈ l, scoreI src b ≤ v) → maxScoreFrom src sc l ≤ v := by
  intro l
  induction l with
  | nil => intro sc v hsc _; simpa [maxScoreFrom] using hsc
  | cons c rest ih =>
    intro sc v hsc hall
    simp only [maxScoreFrom, List.foldl_cons]
    refine ih _ v ?_ ?_
    · exact max_le hsc (hall c (List.mem_cons_self c rest))
    · exact fun b hb => hall b (List.mem_cons_of_mem c hb)

theorem selectFold_spec (src : Str) :
    ∀ (cs B : List DiscoveredAsset) (sc : Int),
      (∀ x ∈ B, scoreI src x = sc) →
      ((cs.foldl (selectStep src) (B, sc)).2 = maxScoreFrom src sc cs ∧
       (∀ x, x ∈ (cs.foldl (selectStep src) (B, sc)).1 ↔
          ((x ∈ B ∧ sc = maxScoreFrom src sc cs) ∨
           (x ∈ cs ∧ scoreI src x = maxScoreFrom src sc cs)))) := by
  intro cs
  induction cs with
  | nil =>
    intro B sc hB
    refine ⟨by simp [maxScoreFrom], fun x => ?_⟩
    simp only [List.foldl_nil]
    constructor
    · intro hx; exact Or.inl ⟨hx, by simp [maxScoreFrom]⟩
    · rintro (⟨hx, _⟩ | ⟨hx, _⟩)
      · exact hx
      · simp at hx
  | cons c cs' ih =>
    intro B sc hB
    simp only [List.foldl_cons]
    have hstep : maxScoreFrom src sc (c :: cs') = maxScoreFrom src (max sc (scoreI src c)) cs' := by
      simp [maxScoreFrom]
    by_cases hgt : scoreI src c > sc
    · have hsel : selectStep src (B, sc) c = ([c], scoreI src c) := by
        simp only [selectStep, scoreI, localityScore]
        rw [if_pos (by simpa [scoreI, localityScore] using hgt)]
      rw [hsel]
      have hmax : max sc (scoreI src c) = scoreI src c := by omega
      obtain ⟨h2, hmem⟩ := ih [c] (scoreI src c)
        (by intro x hx; simp at hx; subst hx; rfl)
      refine ⟨by rw [h2, hstep, hmax], fun x => ?_⟩
      rw [hmem x, hstep, hmax]
      have hscM : sc < maxScoreFrom src (scoreI src c) cs' :=
        lt_of_lt_of_le hgt (le_maxScoreFrom src cs' _)
      constructor
      · rintro (⟨hx, hc⟩ | ⟨hx, hs⟩)
        · simp only [List.mem_singleton] at hx; subst hx
          exact Or.inr ⟨List.mem_cons_self _ _, hc⟩
        · exact Or.inr ⟨List.mem_cons_of_mem _ hx, hs⟩
      · rintro (⟨_, hc⟩ | ⟨hx, hs⟩)
        · omega
        · rcases List.mem_cons.mp hx with rfl | hx
          · exact Or.inl ⟨List.mem_singleton_self _, hs⟩
          · exact Or.inr ⟨hx, hs⟩
    · by_cases heq : scoreI src c = sc
      · have hsel : selectStep src (B, sc) c = (B ++ [c], sc) := by
          simp only [selectStep, scoreI, localityScore]
          rw [if_neg (by simp only [scoreI, localityScore] at heq; omega),
            if_pos (by simp only [scoreI, localityScore] at heq
                       simp [heq])]
        rw [hsel]
        have hmax : max sc (scoreI src c) = sc := by omega
        obtain ⟨h2, hmem⟩ := ih (B ++ [c]) sc
          (by intro x hx
              rcases List.mem_append.mp hx with hx | hx
              · exact hB x hx
              · simp at hx; subst hx; exact heq)
        refine ⟨by rw [h2, hstep, hmax], fun x => ?_⟩
        rw [hmem x, hstep, hmax]
        constructor
        · rintro (⟨hx, hc⟩ | ⟨hx, hs⟩)
          · rcases List.mem_append.mp hx with hx | hx
            · exact Or.inl ⟨hx, hc⟩
            · simp only [List.mem_singleton] at hx; subst hx
              exact Or.inr ⟨List.mem_cons_self _ _, heq.trans hc⟩
          · exact Or.inr ⟨List.mem_cons_of_mem _ hx, hs⟩
        · rintro (⟨hx, hc⟩ | ⟨hx, hs⟩)
          · exact Or.inl ⟨List.mem_append.mpr (Or.inl hx), hc⟩
          · rcases List.mem_cons.mp hx with rfl | hx
            · exact Or.inl ⟨List.mem_append.mpr (Or.inr (List.mem_singleton_self _)),
                by omega⟩
            · exact Or.inr ⟨hx, hs⟩
      · have hlt : scoreI src c < sc := by omega
        have hsel : selectStep src (B, sc) c = (B, sc) := by
          simp only [selectStep, scoreI, localityScore]
          rw [if_neg (by simp only [scoreI, localityScore] at hlt; omega),
            if_neg (by simp only [scoreI, localityScore] at heq
                       simpa using heq)]
        rw [hsel]
        have hmax : max sc (scoreI src c) = sc := by omega
        obtain ⟨h2, hmem⟩ := ih B sc hB
        refine ⟨by rw [h2, hstep, hmax], fun x => ?_⟩
        rw [hmem x, hstep, hmax]
        have hscM : scoreI src c < maxScoreFrom src sc cs' :=
          lt_of_lt_of_le hlt (le_maxScoreFrom src cs' sc)
        constructor
        · rintro (⟨hx, hc⟩ | ⟨hx, hs⟩)
          · exact Or.inl ⟨hx, hc⟩
          · exact Or.inr ⟨List.mem_cons_of_mem _ hx, hs⟩
        · rintro (⟨hx, hc⟩ | ⟨hx, hs⟩)
          · exact Or.inl ⟨hx, hc⟩
          · rcases List.mem_cons.mp hx with rfl | hx
            · omega
            · exact Or.inr ⟨hx, hs⟩

theorem select_mem_iff (src : Str) (cs : List DiscoveredAsset) (a : DiscoveredAsset) :
    a ∈ selectClosestAssets src cs ↔
      (a ∈ cs ∧ ∀ b ∈ cs, localityScore src b ≤ localityScore src a) := by
  unfold selectClosestAssets
  by_cases hlen : cs.length ≤ 1
  · rw [if_pos hlen]
    match cs, hlen with
    | [], _ => simp
    | [c], _ =>
      simp only [List.mem_singleton, List.mem_cons, List.not_mem_nil, or_false]
      constructor
      · rintro rfl
        exact ⟨rfl, by rintro b rfl; exact le_refl _⟩
      · rintro ⟨rfl, _⟩; rfl
  · rw [if_neg hlen]
    obtain ⟨h2, hmem⟩ := selectFold_spec src cs [] (-1) (by simp)
    rw [hmem a]
    have hM : ∀ b ∈ cs, scoreI src b ≤ maxScoreFrom src (-1) cs :=
      fun b hb => mem_le_maxScoreFrom src cs (-1) b hb
    constructor
    · rintro (⟨hx, _⟩ | ⟨ha, hs⟩)
      · simp at hx
      · refine ⟨ha, fun b hb => ?_⟩
        have := hM b hb
        simp only [scoreI] at this hs
        omega
    · rintro ⟨ha, hall⟩
      refine Or.inr ⟨ha, le_antisymm (hM a ha) ?_⟩
      refine maxScoreFrom_le src cs (-1) (scoreI src a) ?_ ?_
      · simp only [scoreI]; omega
      · intro b hb
        have := hall b hb
        simp only [scoreI]
        omega

theorem select_subset (src : Str) (cs : List DiscoveredAsset) (a : DiscoveredAsset)
    (h : a ∈ selectClosestAssets src cs) : a ∈ cs :=
  ((select_mem_iff src cs a).mp h).1

theorem markUsed_mem (assets : List DiscoveredAsset) (src name t : Str) (s : List Str)
    (p : Str) :
    p ∈ markUsed assets src name t s ↔
      p ∈ s ∨ ∃ a ∈ selectClosestAssets src
        (if t != [] then assetPathsByTypeAndName assets (sourceAssetTypeKey name t)
         else assetPathsByName assets name), p = a.AssetPath := by
  unfold markUsed
  by_cases hc : ((if t != [] then assetPathsByTypeAndName assets (sourceAssetTypeKey name t)
      else assetPathsByName assets name) == []) = true
  · rw [if_pos hc]
    have he : (if t != [] then assetPathsByTypeAndName assets (sourceAssetTypeKey name t)
        else assetPathsByName assets name) = [] := by simpa using hc
    rw [he]
    simp [selectClosestAssets]
  · rw [if_neg hc]
    exact foldl_insert_paths_mem _ s p

/-! ## Claim C1 -/

/-- Claim C1 (code bug): over the duplicate-name tree the sole reference marks
only module A's asset used, yet the summary identifier `icon` lands in BOTH
`UsedAssets` and `UnusedAssets` — the disjointness the specification and the
repository's own tests demand does not hold. -/
theorem scan_dup_name_in_both_lists :
    (Scan dupNameTree plainOpts).toOption.map (fun r => (r.UsedAssets, r.UnusedAssets)) =
      some ([str "icon"], [str "icon"]) := by decide

/-! ## Claim C4 -/

/-- Claim C4 (code bug): camelizing `primary_äpfel` byte-slices the first
byte of `ä` (`strings.ToUpper(p[:1])` on `0xC3` yields the replacement
character), so the produced candidate is `primary�\xA4pfel` and the
documented identifier `primaryÄpfel` is never generated. -/
theorem camelize_mangles_multibyte :
    swiftResourceCandidatesForAsset (str "primary_äpfel") (str "imageset") =
      [str "primary_äpfel", str "primary" ++ [0xEF, 0xBF, 0xBD, 0xA4] ++ str "pfel"] ∧
    (str "primaryÄpfel") ∉ swiftResourceCandidatesForAsset (str "primary_äpfel")
      (str "imageset") := by decide

theorem goIndex_some_spec :
    ∀ (s sub : Str) (i : Nat), goIndex sub s = some i →
      sub.isPrefixOf (s.drop i) = true ∧ ∀ j < i, sub.isPrefixOf (s.drop j) = false := by
  intro s
  induction s with
  | nil =>
    intro sub i h
    unfold goIndex at h
    by_cases hsub : (sub == ([] : Str)) = true
    · rw [if_pos hsub] at h
      obtain rfl : i = 0 := by simpa using h.symm
      have : sub = [] := by simpa using hsub
      subst this
      exact ⟨rfl, by omega⟩
    · rw [if_neg hsub] at h
      simp at h
  | cons c rest ih =>
    intro sub i h
    unfold goIndex at h
    by_cases hpre : sub.isPrefixOf (c :: rest) = true
    · rw [if_pos hpre] at h
      obtain rfl : i = 0 := by simpa using h.symm
      exact ⟨hpre, by omega⟩
    · rw [if_neg hpre] at h
      cases hrec : goIndex sub rest with
      | none => rw [hrec] at h; simp at h
      | some i' =>
        rw [hrec] at h
        obtain rfl : i = i' + 1 := by simpa using h.symm
        obtain ⟨h1, h2⟩ := ih sub i' hrec
        refine ⟨by simpa using h1, ?_⟩
        intro j hj
        cases j with
        | zero => exact Bool.eq_false_iff.mpr hpre
        | succ j' =>
          have := h2 j' (by omega)
          simpa using this

theorem goIndex_none_spec :
    ∀ (s sub : Str), goIndex sub s = none → ∀ j, sub.isPrefixOf (s.drop j) = false := by
  intro s
  induction s with
  | nil =>
    intro sub h j
    unfold goIndex at h
    by_cases hsub : (sub == ([] : Str)) = true
    · rw [if_pos hsub] at h; simp at h
    · have : sub ≠ [] := by simpa using hsub
      cases sub with
      | nil => simp at this
      | cons a t => simp [List.isPrefixOf]
  | cons c rest ih =>
    intro sub h j
    unfold goIndex at h
    by_cases hpre : sub.isPrefixOf (c :: rest) = true
    · rw [if_pos hpre] at h; simp at h
    · rw [if_neg hpre] at h
      cases hrec : goIndex sub rest with
      | none =>
        cases j with
        | zero => exact Bool.eq_false_iff.mpr hpre
        | succ j' => simpa using ih sub hrec j'
      | some i' => rw [hrec] at h; simp at h

theorem catalogPathForAsset_isEnclosing (p : Str) (i : Nat)
    (h : goIndex (str ".xcassets" ++ [47]) p = some i) :
    isEnclosingCatalog p (catalogPathForAsset p) = true ∧
    catalogPathForAsset p = p.take (i + (str ".xcassets").length) := by
  have hspec := goIndex_some_spec p (str ".xcassets" ++ [47]) i h
  obtain ⟨rest', hdrop⟩ := (List.isPrefixOf_iff_prefix.mp hspec.1)
  have hp : p = p.take i ++ ((str ".xcassets" ++ [47]) ++ rest') := by
    conv_lhs => rw [← List.take_append_drop i p]
    rw [← hdrop]
  have htake : p.take (i + (str ".xcassets").length) = p.take i ++ str ".xcassets" := by
    rw [List.take_add]
    congr 1
    rw [← hdrop, List.take_append_eq_append_take]
    have e1 : (str ".xcassets" ++ [47]).take (str ".xcassets").length = str ".xcassets" := by
      decide
    have e2 : (str ".xcassets").length - (str ".xcassets" ++ [47]).length = 0 := by decide
    rw [e1, e2]
    simp
  constructor
  · simp only [catalogPathForAsset, h]
    unfold isEnclosingCatalog
    rw [htake]
    apply Bool.and_eq_true_iff.mpr
    constructor
    · exact List.isSuffixOf_iff_suffix.mpr ⟨p.take i, rfl⟩
    · apply List.isPrefixOf_iff_prefix.mpr
      refine ⟨rest', ?_⟩
      conv_rhs => rw [hp]
      simp [List.append_assoc]
  · simp only [catalogPathForAsset, h]

theorem enclosing_gives_marker (p r' : Str) (h : isEnclosingCatalog p r' = true) :
    ∃ r'' , r' = r'' ++ str ".xcassets" ∧
      (str ".xcassets" ++ [47]).isPrefixOf (p.drop r''.length) = true := by
  unfold isEnclosingCatalog at h
  obtain ⟨hsuf, hpre⟩ := Bool.and_eq_true_iff.mp h
  obtain ⟨r'', hr⟩ := List.isSuffixOf_iff_suffix.mp hsuf
  obtain ⟨tail, htail⟩ := List.isPrefixOf_iff_prefix.mp hpre
  refine ⟨r'', hr.symm, ?_⟩
  apply List.isPrefixOf_iff_prefix.mpr
  refine ⟨tail, ?_⟩
  have hp : p = r'' ++ (str ".xcassets" ++ [47] ++ tail) := by
    rw [← htail, ← hr]
    simp [List.append_assoc]
  rw [hp, List.drop_left]

/-! ## Claim C5 -/

/-- Claim C5 (counterexample): under nested catalogs the recorded catalog
path is NOT the longest (nearest) `.xcassets` prefix: for
`A.xcassets/B.xcassets/c.imageset` the code records `A.xcassets` although the
strictly longer enclosing prefix `A.xcassets/B.xcassets` exists. -/
theorem catalog_path_not_longest_counterexample :
    catalogPathForAsset (str "A.xcassets/B.xcassets/c.imageset") = str "A.xcassets" ∧
    isEnclosingCatalog (str "A.xcassets/B.xcassets/c.imageset")
      (str "A.xcassets/B.xcassets") = true ∧
    (str "A.xcassets").length < (str "A.xcassets/B.xcassets").length := by decide

/-- Claim C5 (amended): the recorded catalog path is the SHORTEST prefix of
the asset path that ends in `.xcassets` and is followed by a path separator —
the outermost enclosing `.xcassets` directory, not the nearest. -/
theorem catalog_path_outermost :
    ∀ (p r' : Str), isEnclosingCatalog p r' = true →
      isEnclosingCatalog p (catalogPathForAsset p) = true ∧
      (catalogPathForAsset p).length ≤ r'.length := by
  intro p r' h
  obtain ⟨r'', hr, hmarker⟩ := enclosing_gives_marker p r' h
  cases hidx : goIndex (str ".xcassets" ++ [47]) p with
  | none =>
    have hnone := goIndex_none_spec p _ hidx r''.length
    rw [hnone] at hmarker
    exact absurd hmarker (by simp)
  | some i =>
    obtain ⟨henc, heq⟩ := catalogPathForAsset_isEnclosing p i hidx
    refine ⟨henc, ?_⟩
    obtain ⟨_, hmin⟩ := goIndex_some_spec p _ i hidx
    by_cases hlt : r''.length < i
    · have hf := hmin r''.length hlt
      rw [hf] at hmarker
      exact absurd hmarker (by simp)
    · push_neg at hlt
      rw [heq]
      have hlen : (p.take (i + (str ".xcassets").length)).length ≤
          i + (str ".xcassets").length := by
        simp [List.length_take]
      have hrlen : r'.length = r''.length + (str ".xcassets").length := by
        rw [hr]; simp
      omega

/-- Witness for claim C5's amended theorem at the nested-catalog input. -/
theorem catalog_path_outermost_witness :
    isEnclosingCatalog (str "A.xcassets/B.xcassets/c.imageset")
      (str "A.xcassets/B.xcassets") = true ∧
    (isEnclosingCatalog (str "A.xcassets/B.xcassets/c.imageset")
      (catalogPathForAsset (str "A.xcassets/B.xcassets/c.imageset")) = true ∧
     (catalogPathForAsset (str "A.xcassets/B.xcassets/c.imageset")).length ≤
       (str "A.xcassets/B.xcassets").length) :=
  ⟨by decide, catalog_path_outermost _ _ (by decide)⟩

/-! ## Claim C7 -/

theorem matchesAny_single (path pat : Str) :
    matchesAny path [pat] =
      (if (goTrimSpace pat == ([] : Str)) = true then false
       else
         if (str "/").isSuffixOf (normalizePath (goTrimSpace pat)) then
           (normalizePath path == goTrimSuf (normalizePath (goTrimSpace pat)) (str "/") ||
            (goTrimSuf (normalizePath (goTrimSpace pat)) (str "/") ++ [47]).isPrefixOf
              (normalizePath path))
         else
           match pathMatch (normalizePath (goTrimSpace pat)) (normalizePath path) with
           | .ok ok => ok
           | .error _ => false) := by
  simp only [matchesAny, normalizePath, List.any_cons, List.any_nil, Bool.or_false]
  rw [if_neg (by simp)]

/-- Claim C7: a directory-prefix pattern (ending `/`) matches exactly the
path itself or a `/`-separated descendant; every other non-empty pattern is
decided solely by `path.Match` glob semantics; there is no substring
fallback, so `ExternalLib/` does not match `MyExternalLib/foo` but does match
its own subtree. -/
theorem matches_any_prefix_or_glob :
    (∀ (path pat : Str), normalizePath (goTrimSpace pat) ≠ [] →
      (str "/").isSuffixOf (normalizePath (goTrimSpace pat)) = true →
      matchesAny path [pat] =
        (normalizePath path == goTrimSuf (normalizePath (goTrimSpace pat)) (str "/") ||
         (goTrimSuf (normalizePath (goTrimSpace pat)) (str "/") ++ [47]).isPrefixOf
           (normalizePath path))) ∧
    (∀ (path pat : Str), normalizePath (goTrimSpace pat) ≠ [] →
      (str "/").isSuffixOf (normalizePath (goTrimSpace pat)) = false →
      matchesAny path [pat] =
        (match pathMatch (normalizePath (goTrimSpace pat)) (normalizePath path) with
         | .ok ok => ok
         | .error _ => false)) ∧
    matchesAny (str "MyExternalLib/Assets.xcassets/icon.imageset")
      [str "ExternalLib/"] = false ∧
    matchesAny (str "ExternalLib/Assets.xcassets/icon.imageset")
      [str "ExternalLib/"] = true := by
  have hp0 : ∀ pat : Str, normalizePath (goTrimSpace pat) ≠ [] →
      ((goTrimSpace pat == ([] : Str)) = true → False) := by
    intro pat hne h
    have : goTrimSpace pat = [] := by simpa using h
    rw [this] at hne
    exact hne (by decide)
  refine ⟨?_, ?_, by decide, by decide⟩
  · intro path pat hne hsuf
    rw [matchesAny_single, if_neg (hp0 pat hne), if_pos hsuf]
  · intro path pat hne hsuf
    rw [matchesAny_single, if_neg (hp0 pat hne), if_neg (by rw [hsuf]; simp)]

/-- Witness for claim C7's hypotheses at concrete inputs: the directory
pattern `ExternalLib/` and the glob pattern `App/*.swift`. -/
theorem matches_any_prefix_or_glob_witness :
    (normalizePath (goTrimSpace (str "ExternalLib/")) ≠ [] ∧
      matchesAny (str "MyExternalLib/Assets.xcassets/icon.imageset") [str "ExternalLib/"] =
        (normalizePath (str "MyExternalLib/Assets.xcassets/icon.imageset") ==
           goTrimSuf (normalizePath (goTrimSpace (str "ExternalLib/"))) (str "/") ||
         (goTrimSuf (normalizePath (goTrimSpace (str "ExternalLib/"))) (str "/") ++
            [47]).isPrefixOf
           (normalizePath (str "MyExternalLib/Assets.xcassets/icon.imageset")))) ∧
    (normalizePath (goTrimSpace (str "App/*.swift")) ≠ [] ∧
      matchesAny (str "App/Main.swift") [str "App/*.swift"] =
        (match pathMatch (normalizePath (goTrimSpace (str "App/*.swift")))
            (normalizePath (str "App/Main.swift")) with
         | .ok ok => ok
         | .error _ => false)) :=
  ⟨⟨by decide, matches_any_prefix_or_glob.1 _ _ (by decide) (by decide)⟩,
   ⟨by decide, matches_any_prefix_or_glob.2.1 _ _ (by decide) (by decide)⟩⟩

/-! ## Claim C9 -/

mutual

theorem visitUsed_prune (inc exc : List Str) (a r : Str) (e : FsEntry)
    (acc : List (Str × Str)) :
    visitUsed inc exc a r e acc = visitUsed inc exc a r (pruneGitEntry e) acc := by
  cases e with
  | file n c => rfl
  | dir n es =>
    simp only [pruneGitEntry, visitUsed]
    by_cases hg : (n == str ".git") = true
    · rw [if_pos hg, if_pos hg]
    · rw [if_neg hg, if_neg hg]
      by_cases hexc : matchesAny r exc = true
      · rw [if_pos hexc, if_pos hexc]
      · rw [if_neg hexc, if_neg hexc]
        exact visitUsedList_prune inc exc a r es acc

theorem visitUsedList_prune (inc exc : List Str) (a r : Str) (es : FsList)
    (acc : List (Str × Str)) :
    visitUsedList inc exc a r es acc = visitUsedList inc exc a r (pruneGitList es) acc := by
  cases es with
  | nil => rfl
  | cons e rest =>
    cases e with
    | file n c =>
      simp only [pruneGitList, visitUsedList]
      exact visitUsedList_prune inc exc a r rest _
    | dir n es' =>
      by_cases hg : (n == str ".git") = true
      · simp only [pruneGitList, hg, if_pos, visitUsedList]
        have hskip : visitUsed inc exc (a ++ 47 :: FsEntry.name (.dir n es'))
            (childRel r (FsEntry.name (.dir n es'))) (.dir n es') acc = acc := by
          simp only [visitUsed, FsEntry.name]
          rw [if_pos hg]
        rw [hskip]
        exact visitUsedList_prune inc exc a r rest acc
      · simp only [pruneGitList]
        rw [if_neg hg]
        simp only [visitUsedList, FsEntry.name]
        have h := visitUsed_prune inc exc (a ++ 47 :: n) (childRel r n) (.dir n es') acc
        simp only [pruneGitEntry] at h
        rw [← h]
        exact visitUsedList_prune inc exc a r rest _

end

mutual

theorem visitLabel_prune (inc exc : List Str) (a r : Str) (e : FsEntry)
    (acc : List (Str × Str)) :
    visitLabel inc exc a r e acc = visitLabel inc exc a r (pruneGitEntry e) acc := by
  cases e with
  | file n c => rfl
  | dir n es =>
    simp only [pruneGitEntry, visitLabel]
    by_cases hg : (n == str ".git") = true
    · rw [if_pos hg, if_pos hg]
    · rw [if_neg hg, if_neg hg]
      by_cases hexc : matchesAny r exc = true
      · rw [if_pos hexc, if_pos hexc]
      · rw [if_neg hexc, if_neg hexc]
        exact visitLabelList_prune inc exc a r es acc

theorem visitLabelList_prune (inc exc : List Str) (a r : Str) (es : FsList)
    (acc : List (Str × Str)) :
    visitLabelList inc exc a r es acc = visitLabelList inc exc a r (pruneGitList es) acc := by
  cases es with
  | nil => rfl
  | cons e rest =>
    cases e with
    | file n c =>
      simp only [pruneGitList, visitLabelList]
      exact visitLabelList_prune inc exc a r rest _
    | dir n es' =>
      by_cases hg : (n == str ".git") = true
      · simp only [pruneGitList, hg, if_pos, visitLabelList]
        have hskip : visitLabel inc exc (a ++ 47 :: FsEntry.name (.dir n es'))
            (childRel r (FsEntry.name (.dir n es'))) (.dir n es') acc = acc := by
          simp only [visitLabel, FsEntry.name]
          rw [if_pos hg]
        rw [hskip]
        exact visitLabelList_prune inc exc a r rest acc
      · simp only [pruneGitList]
        rw [if_neg hg]
        simp only [visitLabelList, FsEntry.name]
        have h := visitLabel_prune inc exc (a ++ 47 :: n) (childRel r n) (.dir n es') acc
        simp only [pruneGitEntry] at h
        rw [← h]
        exact visitLabelList_prune inc exc a r rest _

end

/-- Claim C9: both reference-extraction walks (the worker file walk and the
label prepass) are oblivious to `.git` subtrees — deleting every `.git`
directory leaves their file lists unchanged, for ANY include/exclude rules —
while the asset-inventory walk does descend into `.git`: over `gitTree` it
counts the catalog inside `.git` and discovers its asset, and the scan
succeeds although `.git` holds an invalid-UTF-8 source file. -/
theorem git_directories_skipped :
    (∀ (root : Str) (fs : FsList) (inc exc : List Str),
      usedWalkFiles root fs inc exc = usedWalkFiles root (pruneGitList fs) inc exc) ∧
    (∀ (root : Str) (fs : FsList) (inc exc : List Str),
      labelWalkFiles root fs inc exc = labelWalkFiles root (pruneGitList fs) inc exc) ∧
    (collectAssets (str "/r") gitTree [] []).1 = 2 ∧
    ((collectAssets (str "/r") gitTree [] []).2.map (fun a => a.AssetPath)) =
      [str "/r/.git/G.xcassets/gitasset.imageset", str "/r/App/B.xcassets/real.imageset"] ∧
    (Scan gitTree plainOpts).toOption.map (fun r => r.AssetNames) =
      some [str "gitasset", str "real"] := by
  refine ⟨?_, ?_, by decide, by decide, by decide⟩
  · intro root fs inc exc
    unfold usedWalkFiles
    simp only [visitUsed]
    by_cases hg : (baseName root == str ".git") = true
    · rw [if_pos hg, if_pos hg]
    · rw [if_neg hg, if_neg hg]
      by_cases hexc : matchesAny (str ".") exc = true
      · rw [if_pos hexc, if_pos hexc]
      · rw [if_neg hexc, if_neg hexc]
        exact visitUsedList_prune inc exc root (str ".") fs []
  · intro root fs inc exc
    unfold labelWalkFiles
    simp only [visitLabel]
    by_cases hg : (baseName root == str ".git") = true
    · rw [if_pos hg, if_pos hg]
    · rw [if_neg hg, if_neg hg]
      by_cases hexc : matchesAny (str ".") exc = true
      · rw [if_pos hexc, if_pos hexc]
      · rw [if_neg hexc, if_neg hexc]
        exact visitLabelList_prune inc exc root (str ".") fs []

/-! ## Claims C8 and C10: error propagation and used-set soundness -/

theorem osReadFile_ok (pc : Str × Str) (hv : utf8Valid pc.2 = true) :
    osReadFile pc.1 pc.2 = .ok pc.2 := by
  unfold osReadFile; rw [if_pos hv]

theorem osReadFile_error (pc : Str × Str) (hv : utf8Valid pc.2 = false) :
    osReadFile pc.1 pc.2 = .error (str "invalid UTF-8 encoding in " ++ pc.1) := by
  unfold osReadFile; rw [if_neg (by simp [hv])]

theorem prepass_fold_error :
    ∀ (files : List (Str × Str)) (acc : Except Str (List (Str × List Str))) (e : Str),
      files.foldl (fun acc pc =>
        match acc with
        | .error e => .error e
        | .ok labels =>
          match osReadFile pc.1 pc.2 with
          | .error e => .error e
          | .ok content => .ok (accumLabels labels content)) acc = .error e →
      acc = .error e ∨ ∃ pc ∈ files, utf8Valid pc.2 = false ∧
        e = str "invalid UTF-8 encoding in " ++ pc.1 := by
  intro files
  induction files with
  | nil => intro acc e h; exact Or.inl h
  | cons pc rest ih =>
    intro acc e h
    rw [List.foldl_cons] at h
    cases acc with
    | error e0 =>
      rcases ih _ e h with h' | ⟨q, hq, hv, he⟩
      · exact Or.inl (by simpa using h')
      · exact Or.inr ⟨q, List.mem_cons_of_mem pc hq, hv, he⟩
    | ok labels =>
      by_cases hv : utf8Valid pc.2 = true
      · rw [osReadFile_ok pc hv] at h
        rcases ih _ e h with h' | ⟨q, hq, hv', he⟩
        · simp at h'
        · exact Or.inr ⟨q, List.mem_cons_of_mem pc hq, hv', he⟩
      · have hv' : utf8Valid pc.2 = false := by simpa using hv
        rw [osReadFile_error pc hv'] at h
        rcases ih _ e h with h' | ⟨q, hq, hv'', he⟩
        · have he : e = str "invalid UTF-8 encoding in " ++ pc.1 := by
            simpa using h'.symm
          exact Or.inr ⟨pc, List.mem_cons_self pc rest, hv', he⟩
        · exact Or.inr ⟨q, List.mem_cons_of_mem pc hq, hv'', he⟩

theorem worker_fold_err_persists (assets : List DiscoveredAsset)
    (index : List (Str × List DiscoveredAsset)) (labels : List (Str × List Str)) :
    ∀ (files : List (Str × Str)) (u0 : List Str) (e0 : Str),
      (files.foldl (fun (st : List Str × Option Str) pc =>
        match osReadFile pc.1 pc.2 with
        | .error e => (st.1, match st.2 with | some e0 => some e0 | none => some e)
        | .ok content => (processFile assets index labels pc.1 content st.1, st.2))
        (u0, some e0)).2 = some e0 := by
  intro files
  induction files with
  | nil => intro u0 e0; rfl
  | cons pc rest ih =>
    intro u0 e0
    rw [List.foldl_cons]
    cases hread : osReadFile pc.1 pc.2 with
    | error e => exact ih u0 e0
    | ok content => exact ih _ e0

theorem worker_fold_err_spec (assets : List DiscoveredAsset)
    (index : List (Str × List DiscoveredAsset)) (labels : List (Str × List Str)) :
    ∀ (files : List (Str × Str)) (u0 : List Str) (o0 : Option Str) (e : Str),
      (files.foldl (fun (st : List Str × Option Str) pc =>
        match osReadFile pc.1 pc.2 with
        | .error e => (st.1, match st.2 with | some e0 => some e0 | none => some e)
        | .ok content => (processFile assets index labels pc.1 content st.1, st.2))
        (u0, o0)).2 = some e →
      o0 = some e ∨ ∃ pc ∈ files, utf8Valid pc.2 = false ∧
        e = str "invalid UTF-8 encoding in " ++ pc.1 := by
  intro files
  induction files with
  | nil => intro u0 o0 e h; exact Or.inl (by simpa using h)
  | cons pc rest ih =>
    intro u0 o0 e h
    rw [List.foldl_cons] at h
    by_cases hv : utf8Valid pc.2 = true
    · rw [osReadFile_ok pc hv] at h
      rcases ih _ _ e h with h' | ⟨q, hq, hv', he⟩
      · exact Or.inl h'
      · exact Or.inr ⟨q, List.mem_cons_of_mem pc hq, hv', he⟩
    · have hv' : utf8Valid pc.2 = false := by simpa using hv
      rw [osReadFile_error pc hv'] at h
      cases o0 with
      | some e0 =>
        rcases ih _ _ e h with h' | ⟨q, hq, hv'', he⟩
        · exact Or.inl h'
        · exact Or.inr ⟨q, List.mem_cons_of_mem pc hq, hv'', he⟩
      | none =>
        rw [worker_fold_err_persists assets index labels rest u0
          (str "invalid UTF-8 encoding in " ++ pc.1)] at h
        have he : e = str "invalid UTF-8 encoding in " ++ pc.1 := by simpa using h.symm
        exact Or.inr ⟨pc, List.mem_cons_self pc rest, hv', he⟩

theorem worker_fold_some_of_invalid (assets : List DiscoveredAsset)
    (index : List (Str × List DiscoveredAsset)) (labels : List (Str × List Str)) :
    ∀ (files : List (Str × Str)) (u0 : List Str) (o0 : Option Str),
      (∃ pc ∈ files, utf8Valid pc.2 = false) →
      ∃ e, (files.foldl (fun (st : List Str × Option Str) pc =>
        match osReadFile pc.1 pc.2 with
        | .error e => (st.1, match st.2 with | some e0 => some e0 | none => some e)
        | .ok content => (processFile assets index labels pc.1 content st.1, st.2))
        (u0, o0)).2 = some e := by
  intro files
  induction files with
  | nil => intro u0 o0 h; simp at h
  | cons pc rest ih =>
    intro u0 o0 h
    rw [List.foldl_cons]
    by_cases hv : utf8Valid pc.2 = true
    · rw [osReadFile_ok pc hv]
      rcases h with ⟨q, hq, hqv⟩
      rcases List.mem_cons.mp hq with rfl | hq'
      · rw [hv] at hqv; simp at hqv
      · exact ih _ _ ⟨q, hq', hqv⟩
    · have hv' : utf8Valid pc.2 = false := by simpa using hv
      rw [osReadFile_error pc hv']
      cases o0 with
      | some e0 => exact ⟨e0, worker_fold_err_persists assets index labels rest u0 e0⟩
      | none =>
        exact ⟨str "invalid UTF-8 encoding in " ++ pc.1,
          worker_fold_err_persists assets index labels rest u0 _⟩

theorem collectUsedAssets_error_spec (root : Str) (fs : FsList) (inc exc : List Str)
    (assets : List DiscoveredAsset) (e : Str)
    (h : collectUsedAssets root fs inc exc assets = .error e) :
    ∃ pc, (pc ∈ labelWalkFiles root fs inc exc ∨ pc ∈ usedWalkFiles root fs inc exc) ∧
      utf8Valid pc.2 = false ∧ e = str "invalid UTF-8 encoding in " ++ pc.1 := by
  cases hpre : collectSwiftResourceArgumentLabelAssetTypes root fs inc exc with
  | error e0 =>
    simp only [collectUsedAssets, hpre] at h
    have he : e0 = e := by simpa using h
    subst he
    unfold collectSwiftResourceArgumentLabelAssetTypes at hpre
    rcases prepass_fold_error _ _ _ hpre with h' | ⟨pc, hpc, hv, hmsg⟩
    · simp at h'
    · exact ⟨pc, Or.inl hpc, hv, hmsg⟩
  | ok labels =>
    simp only [collectUsedAssets, hpre] at h
    cases hst : (List.foldl (fun (st : List Str × Option Str) pc =>
        match osReadFile pc.1 pc.2 with
        | .error e => (st.1, match st.2 with | some e0 => some e0 | none => some e)
        | .ok content => (processFile assets (buildSwiftResourceCandidateIndex assets)
            labels pc.1 content st.1, st.2))
        ([], none) (usedWalkFiles root fs inc exc)).2 with
    | none => rw [hst] at h; simp at h
    | some e0 =>
      rw [hst] at h
      have he : e0 = e := by simpa using h
      subst he
      rcases worker_fold_err_spec assets (buildSwiftResourceCandidateIndex assets) labels
        (usedWalkFiles root fs inc exc) [] none e0 hst with h' | ⟨pc, hpc, hv, hmsg⟩
      · simp at h'
      · exact ⟨pc, Or.inr hpc, hv, hmsg⟩

theorem collectUsedAssets_errors_of_invalid (root : Str) (fs : FsList) (inc exc : List Str)
    (assets : List DiscoveredAsset)
    (h : ∃ pc ∈ usedWalkFiles root fs inc exc, utf8Valid pc.2 = false) :
    ∃ e, collectUsedAssets root fs inc exc assets = .error e := by
  unfold collectUsedAssets
  cases hpre : collectSwiftResourceArgumentLabelAssetTypes root fs inc exc with
  | error e0 => exact ⟨e0, rfl⟩
  | ok labels =>
    obtain ⟨e, hsome⟩ := worker_fold_some_of_invalid assets
      (buildSwiftResourceCandidateIndex assets) labels (usedWalkFiles root fs inc exc)
      [] none h
    refine ⟨e, ?_⟩
    simp only []
    rw [hsome]

/-! ## Claim C8 -/

/-- Claim C8: when some eligible source file's bytes are not valid UTF-8, the
scan returns an error (never a result), and the error is exactly the
encoding-failure message naming the path of an offending eligible file. -/
theorem scan_fails_on_invalid_utf8 :
    ∀ (fs : FsList) (opts : Options),
      (∃ pc ∈ usedWalkFiles opts.Root fs opts.Include opts.Exclude,
        utf8Valid pc.2 = false) →
      ∃ e pc, Scan fs opts = .error e ∧
        (pc ∈ labelWalkFiles opts.Root fs opts.Include opts.Exclude ∨
         pc ∈ usedWalkFiles opts.Root fs opts.Include opts.Exclude) ∧
        utf8Valid pc.2 = false ∧
        e = str "invalid UTF-8 encoding in " ++ pc.1 := by
  intro fs opts hinv
  obtain ⟨e, herr⟩ := collectUsedAssets_errors_of_invalid opts.Root fs opts.Include
    opts.Exclude (collectAssets opts.Root fs opts.Include opts.Exclude).2 hinv
  obtain ⟨pc, hpc, hv, hmsg⟩ := collectUsedAssets_error_spec opts.Root fs opts.Include
    opts.Exclude (collectAssets opts.Root fs opts.Include opts.Exclude).2 e herr
  refine ⟨e, pc, ?_, hpc, hv, hmsg⟩
  simp only [Scan]
  rw [herr]

/-- Witness for claim C8 at the concrete invalid-UTF-8 tree. -/
theorem scan_fails_on_invalid_utf8_witness :
    (∃ pc ∈ usedWalkFiles plainOpts.Root invalidUtf8Tree plainOpts.Include
        plainOpts.Exclude, utf8Valid pc.2 = false) ∧
    (∃ e pc, Scan invalidUtf8Tree plainOpts = .error e ∧
      (pc ∈ labelWalkFiles plainOpts.Root invalidUtf8Tree plainOpts.Include
          plainOpts.Exclude ∨
       pc ∈ usedWalkFiles plainOpts.Root invalidUtf8Tree plainOpts.Include
          plainOpts.Exclude) ∧
      utf8Valid pc.2 = false ∧
      e = str "invalid UTF-8 encoding in " ++ pc.1) :=
  ⟨by decide, scan_fails_on_invalid_utf8 invalidUtf8Tree plainOpts (by decide)⟩

theorem foldl_preserve {α β : Type} (f : β → α → β) (P : β → Prop)
    (h : ∀ s x, P s → P (f s x)) : ∀ (l : List α) (s : β), P s → P (l.foldl f s) := by
  intro l
  induction l with
  | nil => intro s hs; simpa using hs
  | cons x rest ih =>
    intro s hs
    rw [List.foldl_cons]
    exact ih _ (h s x hs)

theorem foldl_preserve_mem {α β : Type} (f : β → α → β) (P : β → Prop) :
    ∀ (l : List α), (∀ s x, x ∈ l → P s → P (f s x)) → ∀ s, P s → P (l.foldl f s) := by
  intro l
  induction l with
  | nil => intro _ s hs; simpa using hs
  | cons x rest ih =>
    intro h s hs
    rw [List.foldl_cons]
    exact ih (fun s y hy => h s y (List.mem_cons_of_mem x hy)) _
      (h s x (List.mem_cons_self x rest) hs)

theorem foldl_closure {α : Type} (f : List Str → α → List Str) (Q : Str → Prop)
    (h : ∀ (s : List Str) (x : α) (p : Str), p ∈ f s x → p ∈ s ∨ Q p) :
    ∀ (l : List α) (s : List Str) (p : Str), p ∈ l.foldl f s → p ∈ s ∨ Q p := by
  intro l
  induction l with
  | nil => intro s p hp; exact Or.inl (by simpa using hp)
  | cons x rest ih =>
    intro s p hp
    rw [List.foldl_cons] at hp
    rcases ih _ p hp with hp' | hq
    · exact h s x p hp'
    · exact Or.inr hq

theorem indexInsert_sound (assets : List DiscoveredAsset)
    (idx : List (Str × List DiscoveredAsset)) (key : Str) (a : DiscoveredAsset)
    (hidx : ∀ entry ∈ idx, ∀ b ∈ entry.2, b ∈ assets) (ha : a ∈ assets) :
    ∀ entry ∈ indexInsert idx key a, ∀ b ∈ entry.2, b ∈ assets := by
  unfold indexInsert
  cases hf : idx.find? (fun e => e.1 == key) with
  | some e =>
    dsimp only
    by_cases hc : containsAssetPath e.2 a.AssetPath = true
    · rw [if_pos hc]
      exact hidx
    · rw [if_neg hc]
      intro entry hentry b hb
      rcases List.mem_map.mp hentry with ⟨e2, he2, heq⟩
      by_cases hk : (e2.1 == key) = true
      · rw [if_pos hk] at heq
        subst heq
        rcases List.mem_append.mp hb with hb' | hb'
        · exact hidx e2 he2 b hb'
        · simp only [List.mem_singleton] at hb'
          subst hb'
          exact ha
      · rw [if_neg hk] at heq
        subst heq
        exact hidx e2 he2 b hb
  | none =>
    dsimp only
    intro entry hentry b hb
    rcases List.mem_append.mp hentry with h' | h'
    · exact hidx entry h' b hb
    · simp only [List.mem_singleton] at h'
      subst h'
      simp only [List.mem_singleton] at hb
      subst hb
      exact ha

theorem buildIndex_sound (assets : List DiscoveredAsset) :
    ∀ entry ∈ buildSwiftResourceCandidateIndex assets, ∀ b ∈ entry.2, b ∈ assets := by
  unfold buildSwiftResourceCandidateIndex
  refine foldl_preserve_mem _
    (fun (idx : List (Str × List DiscoveredAsset)) =>
      ∀ entry ∈ idx, ∀ b ∈ entry.2, b ∈ assets)
    assets ?_ [] (by simp)
  intro idx asset hasset hP
  refine foldl_preserve _
    (fun (idx : List (Str × List DiscoveredAsset)) =>
      ∀ entry ∈ idx, ∀ b ∈ entry.2, b ∈ assets) ?_ _ idx hP
  intro idx2 c hP2
  exact indexInsert_sound assets idx2 c asset hP2 hasset

theorem markUsed_sound (assets : List DiscoveredAsset) (src name t : Str) (s : List Str)
    (p : Str) (hp : p ∈ markUsed assets src name t s) :
    p ∈ s ∨ ∃ a ∈ assets, p = a.AssetPath := by
  rw [markUsed_mem] at hp
  rcases hp with hp | ⟨a, ha, rfl⟩
  · exact Or.inl hp
  · have ha' := select_subset _ _ _ ha
    by_cases ht : (t != []) = true
    · rw [if_pos ht] at ha'
      simp only [assetPathsByTypeAndName, List.mem_filter] at ha'
      exact Or.inr ⟨a, ha'.1, rfl⟩
    · rw [if_neg ht] at ha'
      simp only [assetPathsByName, List.mem_filter] at ha'
      exact Or.inr ⟨a, ha'.1, rfl⟩

theorem resolveIdentStep_sound (assets : List DiscoveredAsset)
    (index : List (Str × List DiscoveredAsset)) (path : Str)
    (hindex : ∀ entry ∈ index, ∀ b ∈ entry.2, b ∈ assets) :
    ∀ (s : List Str) (identifier p : Str), p ∈ resolveIdentStep index path s identifier →
      p ∈ s ∨ ∃ a ∈ assets, p = a.AssetPath := by
  intro s identifier p hp
  unfold resolveIdentStep at hp
  cases hl : indexLookup index identifier with
  | none => rw [hl] at hp; exact Or.inl hp
  | some matched =>
    rw [hl] at hp
    rw [foldl_insert_paths_mem] at hp
    rcases hp with hp | ⟨a, ha, rfl⟩
    · exact Or.inl hp
    · have ha' := select_subset _ _ _ ha
      unfold indexLookup at hl
      cases hf : index.find? (fun e => e.1 == identifier) with
      | none => rw [hf] at hl; simp at hl
      | some entry =>
        rw [hf] at hl
        have hm : matched = entry.2 := by simpa using hl.symm
        subst hm
        exact Or.inr ⟨a, hindex entry (List.mem_of_find?_eq_some hf) a ha', rfl⟩

theorem processFile_sound (assets : List DiscoveredAsset)
    (index : List (Str × List DiscoveredAsset)) (labels : List (Str × List Str))
    (path content : Str)
    (hindex : ∀ entry ∈ index, ∀ b ∈ entry.2, b ∈ assets) :
    ∀ (s : List Str) (p : Str), p ∈ processFile assets index labels path content s →
      p ∈ s ∨ ∃ a ∈ assets, p = a.AssetPath := by
  intro s p hp
  unfold processFile at hp
  set Q := fun (p : Str) => ∃ a ∈ assets, p = a.AssetPath with hQ
  have hmark : ∀ (s1 : List Str) (n : Str) (p1 : Str),
      p1 ∈ markUsed assets path n [] s1 → p1 ∈ s1 ∨ Q p1 :=
    fun s1 n p1 h1 => markUsed_sound assets path n [] s1 p1 h1
  have hmark2 : ∀ (s1 : List Str) (r : SourceAssetReference) (p1 : Str),
      p1 ∈ markUsed assets path r.Name r.AssetType s1 → p1 ∈ s1 ∨ Q p1 :=
    fun s1 r p1 h1 => markUsed_sound assets path r.Name r.AssetType s1 p1 h1
  have hres : ∀ (s1 : List Str) (i p1 : Str),
      p1 ∈ resolveIdentStep index path s1 i → p1 ∈ s1 ∨ Q p1 :=
    fun s1 i p1 h1 => resolveIdentStep_sound assets index path hindex s1 i p1 h1
  by_cases hsw : (goToLower (filepathExt path) == str ".swift") = true
  · rw [if_pos hsw] at hp
    rcases foldl_closure _ Q hres _ _ p hp with hp1 | hq
    · rcases foldl_closure _ Q hres _ _ p hp1 with hp2 | hq
      · by_cases hib : (goToLower (filepathExt path) == str ".storyboard" ||
            goToLower (filepathExt path) == str ".xib") = true
        · rw [if_pos hib] at hp2
          exact foldl_closure _ Q hmark _ _ p hp2
        · rw [if_neg hib] at hp2
          exact foldl_closure _ Q hmark2 _ _ p hp2
      · exact Or.inr hq
    · exact Or.inr hq
  · rw [if_neg hsw] at hp
    by_cases hib : (goToLower (filepathExt path) == str ".storyboard" ||
        goToLower (filepathExt path) == str ".xib") = true
    · rw [if_pos hib] at hp
      exact foldl_closure _ Q hmark _ _ p hp
    · rw [if_neg hib] at hp
      exact foldl_closure _ Q hmark2 _ _ p hp

theorem worker_fold_used_sound (assets : List DiscoveredAsset)
    (index : List (Str × List DiscoveredAsset)) (labels : List (Str × List Str))
    (hindex : ∀ entry ∈ index, ∀ b ∈ entry.2, b ∈ assets) :
    ∀ (files : List (Str × Str)) (u0 : List Str) (o0 : Option Str),
      (∀ p ∈ u0, ∃ a ∈ assets, p = a.AssetPath) →
      ∀ p ∈ (files.foldl (fun (st : List Str × Option Str) pc =>
        match osReadFile pc.1 pc.2 with
        | .error e => (st.1, match st.2 with | some e0 => some e0 | none => some e)
        | .ok content => (processFile assets index labels pc.1 content st.1, st.2))
        (u0, o0)).1, ∃ a ∈ assets, p = a.AssetPath := by
  intro files
  induction files with
  | nil => intro u0 o0 h p hp; exact h p (by simpa using hp)
  | cons pc rest ih =>
    intro u0 o0 h p hp
    rw [List.foldl_cons] at hp
    cases hread : osReadFile pc.1 pc.2 with
    | error e =>
      rw [hread] at hp
      exact ih u0 _ h p hp
    | ok content =>
      rw [hread] at hp
      refine ih _ o0 ?_ p hp
      intro q hq
      rcases processFile_sound assets index labels pc.1 content hindex u0 q hq with hq' | hq'
      · exact h q hq'
      · exact hq'

theorem collectUsedAssets_sound (root : Str) (fs : FsList) (inc exc : List Str)
    (assets : List DiscoveredAsset) (used : List Str)
    (h : collectUsedAssets root fs inc exc assets = .ok used) :
    ∀ p ∈ used, ∃ a ∈ assets, p = a.AssetPath := by
  cases hpre : collectSwiftResourceArgumentLabelAssetTypes root fs inc exc with
  | error e0 => simp [collectUsedAssets, hpre] at h
  | ok labels =>
    simp only [collectUsedAssets, hpre] at h
    cases hst : (List.foldl (fun (st : List Str × Option Str) pc =>
        match osReadFile pc.1 pc.2 with
        | .error e => (st.1, match st.2 with | some e0 => some e0 | none => some e)
        | .ok content => (processFile assets (buildSwiftResourceCandidateIndex assets)
            labels pc.1 content st.1, st.2))
        ([], none) (usedWalkFiles root fs inc exc)).2 with
    | some e0 => rw [hst] at h; simp at h
    | none =>
      rw [hst] at h
      have hused : used = (List.foldl (fun (st : List Str × Option Str) pc =>
          match osReadFile pc.1 pc.2 with
          | .error e => (st.1, match st.2 with | some e0 => some e0 | none => some e)
          | .ok content => (processFile assets (buildSwiftResourceCandidateIndex assets)
              labels pc.1 content st.1, st.2))
          ([], none) (usedWalkFiles root fs inc exc)).1 := by
        simpa using h.symm
      rw [hused]
      exact worker_fold_used_sound assets (buildSwiftResourceCandidateIndex assets) labels
        (buildIndex_sound assets) (usedWalkFiles root fs inc exc) [] none (by simp)

theorem markUsed_dangling (assets : List DiscoveredAsset) (src name t : Str) (s : List Str)
    (h0t : (0 : Nat) ∉ t) (h0a : ∀ a ∈ assets, (0 : Nat) ∉ a.AssetType)
    (hnone : ∀ a ∈ assets, ¬(a.Name = name ∧ (t = [] ∨ a.AssetType = t))) :
    markUsed assets src name t s = s := by
  unfold markUsed
  have hcand : (if (t != []) = true then
      assetPathsByTypeAndName assets (sourceAssetTypeKey name t)
      else assetPathsByName assets name) = [] := by
    by_cases ht : (t != []) = true
    · rw [if_pos ht]
      unfold assetPathsByTypeAndName
      rw [List.filter_eq_nil_iff]
      intro a ha hkey
      have hinj := sourceAssetTypeKey_inj a.Name a.AssetType name t (h0a a ha) h0t
        (by simpa using hkey)
      exact hnone a ha ⟨hinj.2, Or.inr hinj.1⟩
    · rw [if_neg ht]
      unfold assetPathsByName
      rw [List.filter_eq_nil_iff]
      intro a ha hname
      have ht' : t = [] := by simpa using ht
      exact hnone a ha ⟨by simpa using hname, Or.inl ht'⟩
  rw [hcand]
  simp

/-! ## Claim C10 -/

/-- Claim C10: every path in a successful used set is the asset path of a
discovered asset; a reference matching no discovered asset leaves the used
set untouched; an identifier absent from the candidate index contributes
nothing; and the only errors `collectUsedAssets` can return are read/encoding
failures of walked files — dangling references never raise one. -/
theorem used_paths_are_discovered :
    (∀ (root : Str) (fs : FsList) (inc exc : List Str)
        (assets : List DiscoveredAsset) (used : List Str),
      collectUsedAssets root fs inc exc assets = .ok used →
      ∀ p ∈ used, ∃ a ∈ assets, p = a.AssetPath) ∧
    (∀ (assets : List DiscoveredAsset) (src name t : Str) (s : List Str),
      (0 : Nat) ∉ t → (∀ a ∈ assets, (0 : Nat) ∉ a.AssetType) →
      (∀ a ∈ assets, ¬(a.Name = name ∧ (t = [] ∨ a.AssetType = t))) →
      markUsed assets src name t s = s) ∧
    (∀ (index : List (Str × List DiscoveredAsset)) (path : Str) (s : List Str)
        (identifier : Str),
      indexLookup index identifier = none →
      resolveIdentStep index path s identifier = s) ∧
    (∀ (root : Str) (fs : FsList) (inc exc : List Str)
        (assets : List DiscoveredAsset) (e : Str),
      collectUsedAssets root fs inc exc assets = .error e →
      ∃ pc, (pc ∈ labelWalkFiles root fs inc exc ∨ pc ∈ usedWalkFiles root fs inc exc) ∧
        utf8Valid pc.2 = false ∧ e = str "invalid UTF-8 encoding in " ++ pc.1) := by
  refine ⟨collectUsedAssets_sound, markUsed_dangling, ?_, collectUsedAssets_error_spec⟩
  intro index path s identifier h
  unfold resolveIdentStep
  rw [h]

/-- Witness for claim C10's hypotheses at the `logoTree` scan. -/
theorem used_paths_are_discovered_witness :
    (collectUsedAssets (str "/r") logoTree [] [] [logoClrAsset, logoImgAsset] =
      .ok [str "/r/App/A.xcassets/logo.imageset"]) ∧
    (∀ p ∈ [str "/r/App/A.xcassets/logo.imageset"],
      ∃ a ∈ [logoClrAsset, logoImgAsset], p = a.AssetPath) :=
  ⟨by rfl,
    used_paths_are_discovered.1 (str "/r") logoTree [] [] [logoClrAsset, logoImgAsset]
      [str "/r/App/A.xcassets/logo.imageset"] (by rfl)⟩

/-! ## Claim C3 -/

/-- Claim C3: a candidate is selected exactly when its catalog path shares the
maximal number of leading path segments with the referencing source file (all
tied candidates are kept), and `markUsed` marks exactly the selected
candidates' asset paths. -/
theorem locality_tie_break_exact :
    (∀ (src : Str) (cs : List DiscoveredAsset) (a : DiscoveredAsset),
      a ∈ selectClosestAssets src cs ↔
        (a ∈ cs ∧ ∀ b ∈ cs, commonPathPrefixSegments src b.CatalogPath ≤
          commonPathPrefixSegments src a.CatalogPath)) ∧
    (∀ (assets : List DiscoveredAsset) (src name t : Str) (s : List Str) (p : Str),
      p ∈ markUsed assets src name t s ↔
        p ∈ s ∨ ∃ a ∈ selectClosestAssets src
          (if t != [] then assetPathsByTypeAndName assets (sourceAssetTypeKey name t)
           else assetPathsByName assets name), p = a.AssetPath) :=
  ⟨fun src cs a => select_mem_iff src cs a, markUsed_mem⟩

/-! ## Claim C2 -/

/-- Claim C2: a typed reference can only mark discovered assets of its own
asset type (and name) used; concretely, over `logoTree` the
`UIImage(named: "logo")` reference marks `logo.imageset` used and leaves
`logo.colorset` unused. -/
theorem typed_reference_resolves_only_same_type :
    (∀ (assets : List DiscoveredAsset) (src name t : Str) (s : List Str) (p : Str),
      t ≠ [] → (0 : Nat) ∉ t → (∀ a ∈ assets, (0 : Nat) ∉ a.AssetType) →
      p ∈ markUsed assets src name t s →
      p ∈ s ∨ ∃ a ∈ assets, p = a.AssetPath ∧ a.AssetType = t ∧ a.Name = name) ∧
    (Scan logoTree plainOpts).toOption.map (fun r => (r.UsedAssets, r.UnusedAssets)) =
      some ([str "logo.imageset"], [str "logo.colorset"]) := by
  constructor
  · intro assets src name t s p ht h0t h0a hp
    rw [markUsed_mem] at hp
    rcases hp with hp | ⟨a, ha, rfl⟩
    · exact Or.inl hp
    · have ht' : (t != []) = true := by simpa using ht
      rw [if_pos ht'] at ha
      have ha' := select_subset _ _ _ ha
      simp only [assetPathsByTypeAndName, List.mem_filter] at ha'
      obtain ⟨hmem, hkey⟩ := ha'
      have hinj := sourceAssetTypeKey_inj a.Name a.AssetType name t (h0a a hmem) h0t
        (by simpa using hkey)
      exact Or.inr ⟨a, hmem, rfl, hinj.1, hinj.2⟩
  · decide

/-- Witness for claim C2's hypotheses at a concrete input: marking the typed
reference `("logo", imageset)` against the two `logo` assets yields only the
imageset's path. -/
theorem typed_reference_resolves_only_same_type_witness :
    (str "imageset") ≠ ([] : Str) ∧
    ((str "/r/App/A.xcassets/logo.imageset") ∈ ([] : List Str) ∨
      ∃ a ∈ [logoImgAsset, logoClrAsset],
        (str "/r/App/A.xcassets/logo.imageset") = a.AssetPath ∧
        a.AssetType = str "imageset" ∧ a.Name = str "logo") :=
  ⟨by decide,
    typed_reference_resolves_only_same_type.1 [logoImgAsset, logoClrAsset]
      (str "/r/App/V.swift") (str "logo") (str "imageset") []
      (str "/r/App/A.xcassets/logo.imageset")
      (by decide) (by decide) (by decide) (by decide)⟩

theorem foldl_establish {α β : Type} (f : β → α → β) (P : β → Prop)
    (hpres : ∀ s x, P s → P (f s x)) :
    ∀ (l : List α) (x : α), x ∈ l → (∀ s, P (f s x)) → ∀ s, P (l.foldl f s) := by
  intro l
  induction l with
  | nil => intro x hx; exact absurd hx (List.not_mem_nil x)
  | cons y rest ih =>
    intro x hx hest s
    rw [List.foldl_cons]
    rcases List.mem_cons.mp hx with rfl | hx'
    · exact foldl_preserve f P hpres rest _ (hest s)
    · exact ih x hx' hest _

theorem mem_insertSorted (x z : Str) :
    ∀ (l : List Str), z ∈ insertSorted x l ↔ z = x ∨ z ∈ l := by
  intro l
  induction l with
  | nil => simp [insertSorted]
  | cons y ys ih =>
    cases h : lexLe x y with
    | true => simp [insertSorted, h]
    | false =>
      simp only [insertSorted, h, Bool.false_eq_true, if_false, List.mem_cons, ih]
      tauto

theorem mem_sortStrs (z : Str) : ∀ (l : List Str), z ∈ sortStrs l ↔ z ∈ l := by
  intro l
  induction l with
  | nil => simp [sortStrs]
  | cons x xs ih =>
    unfold sortStrs at ih ⊢
    rw [List.foldr_cons, mem_insertSorted, ih, List.mem_cons]

theorem find?_append_none {α : Type} (p : α → Bool) :
    ∀ (l1 l2 : List α), l1.find? p = none → (l1 ++ l2).find? p = l2.find? p := by
  intro l1
  induction l1 with
  | nil => intro l2 _; rfl
  | cons x l1 ih =>
    intro l2 h
    rw [List.cons_append]
    simp only [List.find?] at h ⊢
    cases hx : p x with
    | true => rw [hx] at h; simp at h
    | false => rw [hx] at h; exact ih l2 h

theorem find?_append_some {α : Type} (p : α → Bool) :
    ∀ (l1 l2 : List α) (e : α), l1.find? p = some e → (l1 ++ l2).find? p = some e := by
  intro l1
  induction l1 with
  | nil => intro l2 e h; cases h
  | cons x l1 ih =>
    intro l2 e h
    rw [List.cons_append]
    simp only [List.find?] at h ⊢
    cases hx : p x with
    | true => rw [hx] at h; exact h
    | false => rw [hx] at h; exact ih l2 e h

theorem labelTypes_mem_exists (L : List (Str × List Str)) (l a : Str)
    (h : a ∈ labelTypes L l) : ∃ e ∈ L, e.1 = l ∧ a ∈ e.2 := by
  unfold labelTypes at h
  cases hf : L.find? (fun e => e.1 == l) with
  | none => rw [hf] at h; simp at h
  | some e =>
    rw [hf] at h
    refine ⟨e, List.mem_of_find?_eq_some hf, ?_, h⟩
    have he := List.find?_some hf
    simpa using he

theorem find?_map_keep (l t l' : Str) :
    ∀ (L : List (Str × List Str)),
      ((L.map (fun e2 => if e2.1 == l then (e2.1, e2.2 ++ [t]) else e2)).find?
        (fun e => e.1 == l')) =
      (L.find? (fun e => e.1 == l')).map
        (fun e2 => if e2.1 == l then (e2.1, e2.2 ++ [t]) else e2) := by
  intro L
  induction L with
  | nil => rfl
  | cons e L ih =>
    rw [List.map_cons]
    simp only [List.find?]
    have hput : (if e.1 == l then (e.1, e.2 ++ [t]) else e).1 = e.1 := by
      cases hl : e.1 == l <;> simp
    rw [hput]
    cases hl' : e.1 == l' with
    | true => simp
    | false => exact ih

theorem labelTypes_labelsInsert (L : List (Str × List Str)) (l t l' a : Str) :
    a ∈ labelTypes (labelsInsert L l t) l' ↔
      a ∈ labelTypes L l' ∨ (l' = l ∧ a = t) := by
  unfold labelsInsert
  cases hf : L.find? (fun e => e.1 == l) with
  | none =>
    show a ∈ labelTypes (L ++ [(l, [t])]) l' ↔ a ∈ labelTypes L l' ∨ (l' = l ∧ a = t)
    cases hf' : L.find? (fun e => e.1 == l') with
    | some e' =>
      unfold labelTypes
      rw [find?_append_some _ L [(l, [t])] e' hf', hf']
      constructor
      · exact Or.inl
      · rintro (h | ⟨rfl, rfl⟩)
        · exact h
        · rw [hf'] at hf
          simp at hf
    | none =>
      unfold labelTypes
      rw [find?_append_none _ L [(l, [t])] hf', hf']
      by_cases hll : l = l'
      · subst hll
        rw [show ([(l, [t])].find? (fun e => e.1 == l)) = some (l, [t]) by
          simp [List.find?]]
        simp
      · have hb : (l == l') = false := by
          cases hq : l == l' with
          | false => rfl
          | true => exact absurd (by simpa using hq) hll
        rw [show ([(l, [t])].find? (fun e => e.1 == l')) = none by
          simp [List.find?, hb]]
        constructor
        · exact Or.inl
        · rintro (h | ⟨rfl, rfl⟩)
          · exact h
          · exact absurd rfl hll
  | some e =>
    have he1 : e.1 = l := by simpa using List.find?_some hf
    show a ∈ labelTypes
        (if e.2.contains t then L
         else L.map (fun e2 => if e2.1 == l then (e2.1, e2.2 ++ [t]) else e2)) l' ↔
      a ∈ labelTypes L l' ∨ (l' = l ∧ a = t)
    by_cases hc : e.2.contains t = true
    · rw [if_pos hc]
      constructor
      · exact Or.inl
      · rintro (h | ⟨rfl, rfl⟩)
        · exact h
        · unfold labelTypes
          rw [hf]
          simpa using hc
    · rw [if_neg hc]
      unfold labelTypes
      rw [find?_map_keep l t l' L]
      cases hf' : L.find? (fun e => e.1 == l') with
      | none =>
        constructor
        · intro h
          exact absurd h (List.not_mem_nil a)
        · rintro (h | ⟨rfl, rfl⟩)
          · exact absurd h (List.not_mem_nil a)
          · rw [hf] at hf'
            simp at hf'
      | some e' =>
        have he'1 : e'.1 = l' := by simpa using List.find?_some hf'
        show a ∈ (if e'.1 == l then (e'.1, e'.2 ++ [t]) else e').2 ↔
          a ∈ e'.2 ∨ (l' = l ∧ a = t)
        by_cases hll : l' = l
        · subst hll
          rw [hf] at hf'
          injection hf' with hee
          subst hee
          rw [if_pos (by simp [he1])]
          simp
        · rw [if_neg (by simp [he'1, hll])]
          constructor
          · exact Or.inl
          · rintro (h | ⟨rfl, rfl⟩)
            · exact h
            · exact absurd rfl hll

theorem labelTypes_accumStep (L : List (Str × List Str)) (m : RxM) (l a : Str) :
    a ∈ labelTypes
      (if goTrimSpace (m.cap 1) == [] || goTrimSpace (m.cap 1) == str "_" ||
          goTrimSpace (m.cap 2) == [] then L
       else if resourceTypeToAssetType (goTrimSpace (m.cap 2)) == [] then L
       else labelsInsert L (goTrimSpace (m.cap 1))
          (resourceTypeToAssetType (goTrimSpace (m.cap 2)))) l ↔
      a ∈ labelTypes L l ∨ (goTrimSpace (m.cap 1) = l ∧ l ≠ [] ∧ l ≠ str "_" ∧
        resourceTypeToAssetType (goTrimSpace (m.cap 2)) = a ∧ a ≠ []) := by
  by_cases hg : (goTrimSpace (m.cap 1) == [] || goTrimSpace (m.cap 1) == str "_" ||
      goTrimSpace (m.cap 2) == []) = true
  · rw [if_pos hg]
    constructor
    · exact Or.inl
    · rintro (h | ⟨hcap, hne, hnu, hat, hane⟩)
      · exact h
      · exfalso
        simp only [Bool.or_eq_true, beq_iff_eq] at hg
        rcases hg with (hg1 | hg2) | hg3
        · exact hne (hcap ▸ hg1)
        · exact hnu (hcap ▸ hg2)
        · rw [hg3] at hat
          exact hane (by rw [← hat]; decide)
  · rw [if_neg hg]
    simp only [Bool.or_eq_true, beq_iff_eq, not_or] at hg
    obtain ⟨⟨hg1, hg2⟩, hg3⟩ := hg
    by_cases ha : (resourceTypeToAssetType (goTrimSpace (m.cap 2)) == []) = true
    · rw [if_pos ha]
      rw [beq_iff_eq] at ha
      constructor
      · exact Or.inl
      · rintro (h | ⟨hcap, hne, hnu, hat, hane⟩)
        · exact h
        · exact absurd (by rw [← hat]; exact ha) hane
    · rw [if_neg ha]
      rw [labelTypes_labelsInsert]
      have hane' : resourceTypeToAssetType (goTrimSpace (m.cap 2)) ≠ [] := by
        simpa using ha
      constructor
      · rintro (h | ⟨hl, ha2⟩)
        · exact Or.inl h
        · refine Or.inr ⟨hl.symm, ?_, ?_, ha2.symm, ?_⟩
          · rw [hl]; exact hg1
          · rw [hl]; exact hg2
          · rw [ha2]; exact hane'
      · rintro (h | ⟨hcap, hne, hnu, hat, hane⟩)
        · exact Or.inl h
        · exact Or.inr ⟨hcap.symm, hat.symm⟩

theorem labelTypes_matchFold (l a : Str) :
    ∀ (ms : List RxM) (L : List (Str × List Str)),
      (a ∈ labelTypes (ms.foldl (fun labels m =>
        let label := goTrimSpace (m.cap 1)
        let resourceType := goTrimSpace (m.cap 2)
        if label == [] || label == str "_" || resourceType == [] then labels
        else
          let assetType := resourceTypeToAssetType resourceType
          if assetType == [] then labels
          else labelsInsert labels label assetType) L) l ↔
      (a ∈ labelTypes L l ∨ ∃ m ∈ ms, goTrimSpace (m.cap 1) = l ∧ l ≠ [] ∧
        l ≠ str "_" ∧ resourceTypeToAssetType (goTrimSpace (m.cap 2)) = a ∧ a ≠ [])) := by
  intro ms
  induction ms with
  | nil =>
    intro L
    simp only [List.foldl_nil]
    simp
  | cons m ms ih =>
    intro L
    rw [List.foldl_cons]
    constructor
    · intro h
      rcases (ih _).mp h with h' | ⟨m', hm', hP⟩
      · rcases (labelTypes_accumStep L m l a).mp h' with h'' | hPm
        · exact Or.inl h''
        · exact Or.inr ⟨m, List.mem_cons_self m ms, hPm⟩
      · exact Or.inr ⟨m', List.mem_cons_of_mem m hm', hP⟩
    · intro h
      rcases h with h' | ⟨m', hm', hP⟩
      · exact (ih _).mpr (Or.inl ((labelTypes_accumStep L m l a).mpr (Or.inl h')))
      · rcases List.mem_cons.mp hm' with rfl | hm''
        · exact (ih _).mpr (Or.inl ((labelTypes_accumStep L m' l a).mpr (Or.inr hP)))
        · exact (ih _).mpr (Or.inr ⟨m', hm'', hP⟩)

theorem labelTypes_accumLabels (L : List (Str × List Str)) (c l a : Str) :
    a ∈ labelTypes (accumLabels L c) l ↔
      a ∈ labelTypes L l ∨ labelDeclWitness c l a :=
  labelTypes_matchFold l a (reFindAll swiftResourceParameterRe c) L

theorem prepass_fold_from_error :
    ∀ (files : List (Str × Str)) (e : Str),
      files.foldl (fun (acc : Except Str (List (Str × List Str))) pc =>
        match acc with
        | .error e => .error e
        | .ok labels =>
          match osReadFile pc.1 pc.2 with
          | .error e => .error e
          | .ok content => .ok (accumLabels labels content)) (.error e) = .error e := by
  intro files
  induction files with
  | nil => intro e; rfl
  | cons pc rest ih =>
    intro e
    rw [List.foldl_cons]
    exact ih e

theorem labelTypes_prepass_fold (l a : Str) :
    ∀ (files : List (Str × Str)) (L0 labels : List (Str × List Str)),
      files.foldl (fun (acc : Except Str (List (Str × List Str))) pc =>
        match acc with
        | .error e => .error e
        | .ok labels =>
          match osReadFile pc.1 pc.2 with
          | .error e => .error e
          | .ok content => .ok (accumLabels labels content)) (.ok L0) = .ok labels →
      (a ∈ labelTypes labels l ↔
        a ∈ labelTypes L0 l ∨ ∃ pc ∈ files, labelDeclWitness pc.2 l a) := by
  intro files
  induction files with
  | nil =>
    intro L0 labels h
    simp only [List.foldl_nil] at h
    cases h
    simp
  | cons pc rest ih =>
    intro L0 labels h
    rw [List.foldl_cons] at h
    by_cases hv : utf8Valid pc.2 = true
    · simp only [osReadFile_ok pc hv] at h
      have hiff := ih (accumLabels L0 pc.2) labels h
      have hacc := labelTypes_accumLabels L0 pc.2 l a
      constructor
      · intro hm
        rcases hiff.mp hm with h0 | ⟨q, hq, hQ⟩
        · rcases hacc.mp h0 with h1 | hd
          · exact Or.inl h1
          · exact Or.inr ⟨pc, List.mem_cons_self pc rest, hd⟩
        · exact Or.inr ⟨q, List.mem_cons_of_mem pc hq, hQ⟩
      · intro hm
        rcases hm with h0 | ⟨q, hq, hQ⟩
        · exact hiff.mpr (Or.inl (hacc.mpr (Or.inl h0)))
        · rcases List.mem_cons.mp hq with rfl | hq'
          · exact hiff.mpr (Or.inl (hacc.mpr (Or.inr hQ)))
          · exact hiff.mpr (Or.inr ⟨q, hq', hQ⟩)
    · have hv' : utf8Valid pc.2 = false := by simpa using hv
      simp only [osReadFile_error pc hv'] at h
      rw [prepass_fold_from_error] at h
      simp at h

theorem prepass_labels_spec (root : Str) (fs : FsList) (inc exc : List Str)
    (labels : List (Str × List Str))
    (h : collectSwiftResourceArgumentLabelAssetTypes root fs inc exc = .ok labels)
    (l a : Str) :
    a ∈ labelTypes labels l ↔
      ∃ pc ∈ labelWalkFiles root fs inc exc, labelDeclWitness pc.2 l a := by
  have h' := labelTypes_prepass_fold l a (labelWalkFiles root fs inc exc) [] labels h
  constructor
  · intro hm
    rcases h'.mp hm with h0 | hx
    · exact absurd h0 (List.not_mem_nil a)
    · exact hx
  · intro hx
    exact h'.mpr (Or.inr hx)

theorem c6_typeFold_pres (content : Str) (L : List (Str × List Str)) (name : Str) :
    ∀ (ts : List Str) (st : List SourceAssetReference × List Str),
      (∀ t ∈ ts, labeledRefWitness content L ⟨name, t⟩) →
      labeledStInv content L st →
      labeledStInv content L (ts.foldl (fun st assetType =>
        if st.2.contains (sourceAssetTypeKey name assetType) then st
        else (st.1 ++ [⟨name, assetType⟩],
              st.2 ++ [sourceAssetTypeKey name assetType])) st) := by
  intro ts st hts hst
  refine foldl_preserve_mem _ (labeledStInv content L) ts ?_ st hst
  rintro s t ht ⟨hsmap, hsG⟩
  by_cases hc : s.2.contains (sourceAssetTypeKey name t) = true
  · rw [if_pos hc]
    exact ⟨hsmap, hsG⟩
  · rw [if_neg hc]
    constructor
    · simp [List.map_append, hsmap]
    · intro r hr
      rcases List.mem_append.mp hr with hr1 | hr2
      · exact hsG r hr1
      · rw [List.mem_singleton.mp hr2]
        exact hts t ht

theorem c6_typeFold_mono (k name : Str) :
    ∀ (ts : List Str) (st : List SourceAssetReference × List Str), k ∈ st.2 →
      k ∈ (ts.foldl (fun st assetType =>
        if st.2.contains (sourceAssetTypeKey name assetType) then st
        else (st.1 ++ [⟨name, assetType⟩],
              st.2 ++ [sourceAssetTypeKey name assetType])) st).2 := by
  intro ts st hk
  refine foldl_preserve _ (fun st => k ∈ st.2) ?_ ts st hk
  intro s t hks
  by_cases hc : s.2.contains (sourceAssetTypeKey name t) = true
  · rw [if_pos hc]; exact hks
  · rw [if_neg hc]; exact List.mem_append_left _ hks

theorem c6_typeFold_key (name t : Str) :
    ∀ (ts : List Str), t ∈ ts → ∀ (st : List SourceAssetReference × List Str),
      sourceAssetTypeKey name t ∈ (ts.foldl (fun st assetType =>
        if st.2.contains (sourceAssetTypeKey name assetType) then st
        else (st.1 ++ [⟨name, assetType⟩],
              st.2 ++ [sourceAssetTypeKey name assetType])) st).2 := by
  intro ts hts st
  refine foldl_establish _ (fun st => sourceAssetTypeKey name t ∈ st.2) ?_ ts t hts ?_ st
  · intro s x hks
    by_cases hc : s.2.contains (sourceAssetTypeKey name x) = true
    · rw [if_pos hc]; exact hks
    · rw [if_neg hc]; exact List.mem_append_left _ hks
  · intro s
    by_cases hc : s.2.contains (sourceAssetTypeKey name t) = true
    · rw [if_pos hc]
      simpa using hc
    · rw [if_neg hc]
      exact List.mem_append_right _ (List.mem_singleton.mpr rfl)

theorem c6_matchFold_pres (content : Str) (L : List (Str × List Str)) (lab : Str)
    (hlab : lab ∈ L.map (fun e => e.1)) :
    ∀ (st : List SourceAssetReference × List Str),
      labeledStInv content L st →
      labeledStInv content L ((reFindAll (labeledArgumentRe lab) content).foldl
        (fun st m =>
          if goTrimSpace (m.cap 1) == [] then st
          else (labelTypes L lab).foldl (fun st assetType =>
            if st.2.contains (sourceAssetTypeKey (goTrimSpace (m.cap 1)) assetType) then st
            else (st.1 ++ [⟨goTrimSpace (m.cap 1), assetType⟩],
                  st.2 ++ [sourceAssetTypeKey (goTrimSpace (m.cap 1)) assetType])) st) st) := by
  intro st hst
  refine foldl_preserve_mem _ (labeledStInv content L) _ ?_ st hst
  intro s m hm hs
  by_cases hname : (goTrimSpace (m.cap 1) == []) = true
  · rw [if_pos hname]; exact hs
  · rw [if_neg hname]
    refine c6_typeFold_pres content L (goTrimSpace (m.cap 1)) (labelTypes L lab) s ?_ hs
    intro t ht
    exact ⟨lab, hlab, m, hm, rfl, by simpa using hname, ht⟩

theorem c6_matchFold_mono (L : List (Str × List Str)) (lab k : Str) :
    ∀ (ms : List RxM) (st : List SourceAssetReference × List Str), k ∈ st.2 →
      k ∈ (ms.foldl (fun st m =>
        if goTrimSpace (m.cap 1) == [] then st
        else (labelTypes L lab).foldl (fun st assetType =>
          if st.2.contains (sourceAssetTypeKey (goTrimSpace (m.cap 1)) assetType) then st
          else (st.1 ++ [⟨goTrimSpace (m.cap 1), assetType⟩],
                st.2 ++ [sourceAssetTypeKey (goTrimSpace (m.cap 1)) assetType])) st) st).2 := by
  intro ms st hk
  refine foldl_preserve _ (fun st => k ∈ st.2) ?_ ms st hk
  intro s m hks
  by_cases hname : (goTrimSpace (m.cap 1) == []) = true
  · rw [if_pos hname]; exact hks
  · rw [if_neg hname]
    exact c6_typeFold_mono k (goTrimSpace (m.cap 1)) (labelTypes L lab) s hks

theorem c6_matchFold_key (content : Str) (L : List (Str × List Str)) (lab : Str)
    (r : SourceAssetReference) (m : RxM)
    (hm : m ∈ reFindAll (labeledArgumentRe lab) content)
    (htrim : goTrimSpace (m.cap 1) = r.Name) (hne : r.Name ≠ [])
    (ht : r.AssetType ∈ labelTypes L lab) :
    ∀ (st : List SourceAssetReference × List Str),
      sourceAssetTypeKey r.Name r.AssetType ∈
        ((reFindAll (labeledArgumentRe lab) content).foldl (fun st m =>
          if goTrimSpace (m.cap 1) == [] then st
          else (labelTypes L lab).foldl (fun st assetType =>
            if st.2.contains (sourceAssetTypeKey (goTrimSpace (m.cap 1)) assetType) then st
            else (st.1 ++ [⟨goTrimSpace (m.cap 1), assetType⟩],
                  st.2 ++ [sourceAssetTypeKey (goTrimSpace (m.cap 1)) assetType])) st) st).2 := by
  intro st
  refine foldl_establish _ (fun st => sourceAssetTypeKey r.Name r.AssetType ∈ st.2)
    ?_ _ m hm ?_ st
  · intro s m2 hks
    by_cases hname : (goTrimSpace (m2.cap 1) == []) = true
    · rw [if_pos hname]; exact hks
    · rw [if_neg hname]
      exact c6_typeFold_mono _ _ (labelTypes L lab) s hks
  · intro s
    have hname : ¬ ((goTrimSpace (m.cap 1) == []) = true) := by
      simp only [htrim, beq_iff_eq]
      exact hne
    rw [if_neg hname, htrim]
    exact c6_typeFold_key r.Name r.AssetType (labelTypes L lab) ht s

theorem c6_labelFold_pres (content : Str) (L : List (Str × List Str)) :
    ∀ (labs : List Str), (∀ lab ∈ labs, lab ∈ L.map (fun e => e.1)) →
      ∀ (st : List SourceAssetReference × List Str),
        labeledStInv content L st →
        labeledStInv content L (labs.foldl (fun st lab =>
          (reFindAll (labeledArgumentRe lab) content).foldl (fun st m =>
            if goTrimSpace (m.cap 1) == [] then st
            else (labelTypes L lab).foldl (fun st assetType =>
              if st.2.contains (sourceAssetTypeKey (goTrimSpace (m.cap 1)) assetType) then st
              else (st.1 ++ [⟨goTrimSpace (m.cap 1), assetType⟩],
                    st.2 ++ [sourceAssetTypeKey (goTrimSpace (m.cap 1)) assetType])) st) st) st) := by
  intro labs hlabs st hst
  refine foldl_preserve_mem _ (labeledStInv content L) labs ?_ st hst
  intro s lab hlab hs
  exact c6_matchFold_pres content L lab (hlabs lab hlab) s hs

theorem c6_labelFold_key (content : Str) (L : List (Str × List Str)) (lab : Str)
    (r : SourceAssetReference) (m : RxM)
    (hm : m ∈ reFindAll (labeledArgumentRe lab) content)
    (htrim : goTrimSpace (m.cap 1) = r.Name) (hne : r.Name ≠ [])
    (ht : r.AssetType ∈ labelTypes L lab) :
    ∀ (labs : List Str), lab ∈ labs →
      ∀ (st : List SourceAssetReference × List Str),
        sourceAssetTypeKey r.Name r.AssetType ∈
          (labs.foldl (fun st lab =>
            (reFindAll (labeledArgumentRe lab) content).foldl (fun st m =>
              if goTrimSpace (m.cap 1) == [] then st
              else (labelTypes L lab).foldl (fun st assetType =>
                if st.2.contains (sourceAssetTypeKey (goTrimSpace (m.cap 1)) assetType) then st
                else (st.1 ++ [⟨goTrimSpace (m.cap 1), assetType⟩],
                      st.2 ++ [sourceAssetTypeKey (goTrimSpace (m.cap 1)) assetType])) st) st)
            st).2 := by
  intro labs hlabmem st
  refine foldl_establish _ (fun st => sourceAssetTypeKey r.Name r.AssetType ∈ st.2)
    ?_ labs lab hlabmem ?_ st
  · intro s lab2 hks
    exact c6_matchFold_mono L lab2 _ _ s hks
  · intro s
    exact c6_matchFold_key content L lab r m hm htrim hne ht s

theorem labeled_extract_mem (content : Str) (L : List (Str × List Str))
    (hN : ∀ e ∈ L, ∀ t ∈ e.2, (0 : Nat) ∉ t) (r : SourceAssetReference) :
    r ∈ extractSwiftLabeledResourceArgumentReferences content L ↔
      labeledRefWitness content L r := by
  by_cases hL : L = []
  · subst hL
    constructor
    · intro h
      exact absurd h (List.not_mem_nil r)
    · rintro ⟨lab, hlab, _⟩
      exact absurd hlab (by simp)
  · have hcond : ¬ ((L == []) = true) := by
      simp only [beq_iff_eq]
      exact hL
    have hext : extractSwiftLabeledResourceArgumentReferences content L =
        ((sortStrs (L.map (fun e => e.1))).foldl (fun st lab =>
          (reFindAll (labeledArgumentRe lab) content).foldl (fun st m =>
            if goTrimSpace (m.cap 1) == [] then st
            else (labelTypes L lab).foldl (fun st assetType =>
              if st.2.contains (sourceAssetTypeKey (goTrimSpace (m.cap 1)) assetType) then st
              else (st.1 ++ [⟨goTrimSpace (m.cap 1), assetType⟩],
                    st.2 ++ [sourceAssetTypeKey (goTrimSpace (m.cap 1)) assetType])) st) st)
          ([], [])).1 := by
      unfold extractSwiftLabeledResourceArgumentReferences
      rw [if_neg hcond]
    rw [hext]
    have hfold := c6_labelFold_pres content L (sortStrs (L.map (fun e => e.1)))
      (fun lab hlab => (mem_sortStrs lab (L.map (fun e => e.1))).mp hlab)
      ([], []) ⟨rfl, fun r2 hr2 => absurd hr2 (List.not_mem_nil r2)⟩
    constructor
    · intro h
      exact hfold.2 r h
    · rintro ⟨lab, hlab, m, hm, htrim, hne, ht⟩
      have hkey := c6_labelFold_key content L lab r m hm htrim hne ht
        (sortStrs (L.map (fun e => e.1)))
        ((mem_sortStrs lab (L.map (fun e => e.1))).mpr hlab) ([], [])
      rw [hfold.1] at hkey
      rcases List.mem_map.mp hkey with ⟨r2, hr2, hkeq⟩
      have hnul : (0 : Nat) ∉ r.AssetType := by
        rcases labelTypes_mem_exists L lab r.AssetType ht with ⟨e, he, he1, hae⟩
        exact hN e he r.AssetType hae
      rcases hfold.2 r2 hr2 with ⟨lab2, hlab2, m2, hm2, htrim2, hne2, ht2⟩
      have hnul2 : (0 : Nat) ∉ r2.AssetType := by
        rcases labelTypes_mem_exists L lab2 r2.AssetType ht2 with ⟨e, he, he1, hae⟩
        exact hN e he r2.AssetType hae
      obtain ⟨hT, hNm⟩ :=
        sourceAssetTypeKey_inj r2.Name r2.AssetType r.Name r.AssetType hnul2 hnul hkeq
      have hrr : r2 = r := by
        obtain ⟨n1, t1⟩ := r2
        obtain ⟨n2, t2⟩ := r
        dsimp only at hT hNm
        rw [hT, hNm]
      rw [hrr] at hr2
      exact hr2

/-- C6.  Labeled-argument call sites are gated by the Swift label prepass:
with an empty label map the labeled extractor emits nothing; against a label
map whose asset-type strings are NUL-free it emits exactly the references
`label: .ident` whose (trimmed, non-empty) identifier is matched for some
mapped label, typed with that label's mapped asset types; the prepass map
produced by `collectSwiftResourceArgumentLabelAssetTypes` maps a label to an
asset type exactly when some walked `.swift` file anywhere under the root
declares a parameter with that label (neither empty nor `_`) of
`ImageResource`/`ColorResource` type (optional and array variants included);
and concretely, with `func setData(icon: ImageResource, ...)` declared in
`A.swift` and `view.setData(icon: .foo, ...)` called in `B.swift`, the scan
marks `foo` used, while without the declaration anywhere the same call
leaves `foo` unused. -/
theorem labeled_argument_prepass :
    (∀ content, extractSwiftLabeledResourceArgumentReferences content [] = []) ∧
    (∀ content (L : List (Str × List Str)),
      (∀ e ∈ L, ∀ t ∈ e.2, (0 : Nat) ∉ t) →
      ∀ r, r ∈ extractSwiftLabeledResourceArgumentReferences content L ↔
        labeledRefWitness content L r) ∧
    (∀ root fs inc exc (labels : List (Str × List Str)),
      collectSwiftResourceArgumentLabelAssetTypes root fs inc exc = .ok labels →
      ∀ l a, a ∈ labelTypes labels l ↔
        ∃ pc ∈ labelWalkFiles root fs inc exc, labelDeclWitness pc.2 l a) ∧
    (Scan labeledTree plainOpts).toOption.map
      (fun res => (res.UsedAssets, res.UnusedAssets)) = some ([str "foo"], []) ∧
    (Scan labeledTreeNoDecl plainOpts).toOption.map
      (fun res => (res.UsedAssets, res.UnusedAssets)) = some ([], [str "foo"]) := by
  refine ⟨fun content => rfl, ?_, ?_, by decide, by decide⟩
  · intro content L hN r
    exact labeled_extract_mem content L hN r
  · intro root fs inc exc labels h l a
    exact prepass_labels_spec root fs inc exc labels h l a

/-- Instantiation of the labeled-argument theorem at the two-file scenario:
the hypotheses hold at the concrete label map and tree, and yield the
call-site reference `foo : imageset` and the prepass mapping
`icon ↦ imageset`. -/
theorem labeled_argument_prepass_witness :
    ((⟨str "foo", str "imageset"⟩ : SourceAssetReference) ∈
      extractSwiftLabeledResourceArgumentReferences
        (str "view.setData(icon: .foo, fieldName: \"x\", value: \"y\")")
        [(str "icon", [str "imageset"])]) ∧
    str "imageset" ∈ labelTypes [(str "icon", [str "imageset"])] (str "icon") := by
  constructor
  · exact (labeled_argument_prepass.2.1
      (str "view.setData(icon: .foo, fieldName: \"x\", value: \"y\")")
      [(str "icon", [str "imageset"])] (by decide)
      ⟨str "foo", str "imageset"⟩).mpr (by decide)
  · exact (labeled_argument_prepass.2.2.1 (str "/r") labeledTree [] []
      [(str "icon", [str "imageset"])] rfl (str "icon") (str "imageset")).mpr (by decide)

end Xcwrap
